import Mathlib

/-!
# Verification of the adaptive unique-visitor counter (page_statistics)

Shallow embedding of the core counter code:
  - src/counter/uvcounter.ts   (UvCounter: tier controller, hash functions)
  - src/counter/hyperlogsog.ts (HyperLogLog sketch tier)
  - src/unnamed/part_006       (Bitmap tier)
  - src/unnamed/part_005       (SetCounter exact tier)

JS numbers are modelled as exact values: machine integers as Nat/Int with
the 32-bit conversions (ToInt32/ToUint32) made explicit, and the
floating-point estimate arithmetic of HyperLogLog.count as real numbers.
Strings are modelled as lists of UTF-16 code units (List Nat), hex strings
as lists of characters.

A method that can throw is modelled as Except String, and a method that
mutates before throwing (fromCompressedHex) as a pair
(Option String) x state, so the state left behind by a failing call is
observable.
-/

set_option maxRecDepth 8000

namespace PageStats

/-! ## JS 32-bit integer conversions -/

/-- ECMAScript ToInt32: reduce an integer mod 2^32 into [-2^31, 2^31). -/
def toInt32 (n : Int) : Int :=
  let r := n % 4294967296
  if r < 2147483648 then r else r - 4294967296

/-- ECMAScript ToUint32: reduce an integer mod 2^32 into [0, 2^32). -/
def toUint32 (n : Int) : Nat := (n % 4294967296).toNat

/-- JS expression "val & mask" for a nonnegative 32-bit mask: the low bits of
the two's-complement representation, i.e. of ToUint32(val). -/
def jsAnd (v : Int) (mask : Nat) : Nat := toUint32 v &&& mask

/-! ## Hash functions (src/counter/uvcounter.ts lines 82-109, and the identical
32-bit hash in src/counter/hyperlogsog.ts lines 34-42)

_hash_9:  hash = (hash << 3) + charCode; hash &= 0x1ff.
  All intermediate values stay below 2^31, so the JS Int32 conversions inside
  << and & are the identity and plain Nat arithmetic is exact.
_hash_14: hash = 13 * hash + charCode; hash &= 0x3fff.  Same remark.
_hash:    hash = (hash << 5) - hash + charCode; hash &= 0xffffffff.
  Here (hash << 5) wraps at 2^31 (JS Int32 shift) and & 0xffffffff is
  ToInt32 (0xffffffff is -1 as an Int32), so the result is a SIGNED 32-bit
  value; we keep the Int32 conversions explicit. -/

def hash9 (s : List Nat) : Nat :=
  s.foldl (fun h c => ((h <<< 3) + c) &&& 0x1ff) 0

def hash14 (s : List Nat) : Nat :=
  s.foldl (fun h c => (13 * h + c) &&& 0x3fff) 0

def hash32 (s : List Nat) : Int :=
  s.foldl (fun h c => toInt32 (toInt32 (h * 32) - h + c)) 0

/-! ## SetCounter (src/unnamed/part_005)

A JS Set of numbers: insertion-ordered, duplicate-free list. -/

structure SetCounter where
  container : List Int
  deriving DecidableEq, Repr

def SetCounter.new : SetCounter := ⟨[]⟩

def SetCounter.add (s : SetCounter) (v : Int) : SetCounter :=
  if v ∈ s.container then s else ⟨s.container ++ [v]⟩

def SetCounter.count (s : SetCounter) : Nat := s.container.length

def SetCounter.valueList (s : SetCounter) : List Int := s.container

def SetCounter.toJson (s : SetCounter) : List Int := s.container

/-- fromJson(data) { this.container = new Set(data) }: a JS Set built from an
array keeps the first occurrence of each element, in order. -/
def SetCounter.fromJson (data : List Int) : SetCounter :=
  ⟨data.foldl (fun l v => if v ∈ l then l else l ++ [v]) []⟩

/-! ## Hex codec helpers (shared text of Bitmap and HyperLogLog serializers)

byte.toString(16).padStart(2, "0") produces two lowercase hex digits for a
byte value < 256; parseInt(two hex chars, 16) inverts it. -/

def hexDigitChar (n : Nat) : Char :=
  if n < 10 then Char.ofNat (48 + n) else Char.ofNat (87 + n)

def byteToHex (b : Nat) : List Char := [hexDigitChar (b / 16), hexDigitChar (b % 16)]

def bytesToHex (bs : List Nat) : List Char := (bs.map byteToHex).flatten

def isHexDigit (c : Char) : Bool :=
  ('0' ≤ c && c ≤ '9') || ('a' ≤ c && c ≤ 'f') || ('A' ≤ c && c ≤ 'F')

def hexVal (c : Char) : Nat :=
  if '0' ≤ c && c ≤ '9' then c.toNat - 48
  else if 'a' ≤ c && c ≤ 'f' then c.toNat - 87
  else c.toNat - 55

/-- parseInt(s.substr(2*i, 2), 16) for an in-range byte index. -/
def hexByteAt (s : List Char) (i : Nat) : Nat :=
  16 * hexVal (s.getD (2 * i) '0') + hexVal (s.getD (2 * i + 1) '0')

/-- Index of the last non-zero byte, scanning from the end (toCompressedHex). -/
def lastNonZeroIndex (l : List Nat) : Option Nat :=
  (List.range l.length).reverse.find? (fun i => l.getD i 0 != 0)

/-! ## Bitmap (src/unnamed/part_006)

bits is a Uint8Array of ceil(size/8) bytes; bit at position pos lives in
byte pos >>> 3 at offset pos % 8. -/

structure Bitmap where
  size : Nat
  bits : List Nat
  deriving DecidableEq, Repr

def Bitmap.new (size : Nat) : Bitmap := ⟨size, List.replicate ((size + 7) / 8) 0⟩

/-- The in-range body of set(position): bits[index] |= 1 << offset with
index = position >>> 3 and offset = position % 8. -/
def Bitmap.setUnchecked (b : Bitmap) (pos : Nat) : Bitmap :=
  { b with bits := b.bits.set (pos >>> 3) ((b.bits.getD (pos >>> 3) 0) ||| (1 <<< (pos % 8))) }

/-- set(position): RangeError outside [0, size), else set the bit.
(Positions are Nat here; the JS negative-position check is vacuous.) -/
def Bitmap.set (b : Bitmap) (pos : Nat) : Except String Bitmap :=
  if pos < b.size then .ok (b.setUnchecked pos) else .error "Position out of range"

/-- Modelled from the spec: Bitmap.add is called by UvCounter but is absent
from the Bitmap source in src/; spec section 4.3 gives its contract:
"add(index: integer) sets bit index (fails with RangeError if index is
outside [0, capacity))", which is exactly Bitmap.set. -/
def Bitmap.add (b : Bitmap) (pos : Nat) : Except String Bitmap := b.set pos

def Bitmap.getD (b : Bitmap) (pos : Nat) : Bool :=
  (b.bits.getD (pos >>> 3) 0) &&& (1 <<< (pos % 8)) != 0

/-- getPositions(): all positions with bit 1, in increasing order. -/
def Bitmap.getPositions (b : Bitmap) : List Nat :=
  ((List.range b.bits.length).map (fun i =>
    (List.range 8).filterMap (fun j =>
      if (b.bits.getD i 0) &&& (1 <<< j) != 0 then some (i * 8 + j) else none))).flatten

/-- Modelled from the spec: Bitmap.valueList (used by UvCounter._bit2llm) is
absent from the Bitmap source in src/; spec section 4.5 says promotion feeds
"every retained masked value" of the outgoing tier, which for a bitmap is
its list of set positions, i.e. getPositions. -/
def Bitmap.valueList (b : Bitmap) : List Nat := b.getPositions

/-- count(): population count, scanning every byte and every bit index. -/
def Bitmap.count (b : Bitmap) : Nat :=
  (b.bits.map (fun byte =>
    ((List.range 8).filter (fun j => byte &&& (1 <<< j) != 0)).length)).sum

/-- reset(): fill all bytes with zero. -/
def Bitmap.reset (b : Bitmap) : Bitmap :=
  { b with bits := List.replicate b.bits.length 0 }

def Bitmap.toHex (b : Bitmap) : List Char := bytesToHex b.bits

def Bitmap.toCompressedHex (b : Bitmap) : List Char :=
  match lastNonZeroIndex b.bits with
  | none => []
  | some k => bytesToHex (b.bits.take (k + 1))

/-- fromHex: validate the character set, then require exactly
ceil(size/8)*2 characters, then overwrite every byte.  All checks precede
any mutation, so a failing call leaves the bitmap unchanged. -/
def Bitmap.fromHex (b : Bitmap) (s : List Char) : Option String × Bitmap :=
  if ¬ s.all isHexDigit then (some "Invalid hexadecimal string", b)
  else if s.length ≠ ((b.size + 7) / 8) * 2 then (some "Hex string length mismatch", b)
  else (none, { b with bits := (List.range b.bits.length).map (hexByteAt s) })

/-- fromCompressedHex: the source calls this.reset() FIRST, then validates,
then fills the leading bytes; bytes past the input stay zero. -/
def Bitmap.fromCompressedHex (b : Bitmap) (s : List Char) : Option String × Bitmap :=
  let b0 := b.reset
  if s.isEmpty then (none, b0)
  else if ¬ s.all isHexDigit then (some "Invalid hexadecimal string", b0)
  else if s.length % 2 ≠ 0 then (some "Hex string length must be even", b0)
  else if s.length / 2 > b.bits.length then
    (some "Compressed hex string too long for bitmap size", b0)
  else (none, { b with bits := (List.range b.bits.length).map (fun i =>
    if i < s.length / 2 then hexByteAt s i else 0) })

def Bitmap.toHexStr (b : Bitmap) (compress : Nat := 1) : List Char :=
  if compress = 0 then b.toHex else b.toCompressedHex

def Bitmap.fromHexStr (b : Bitmap) (s : List Char) (compress : Nat := 1) :
    Option String × Bitmap :=
  if compress = 0 then b.fromHex s else b.fromCompressedHex s

/-! ## HyperLogLog (src/counter/hyperlogsog.ts)

p is the precision, registers a Uint8Array of length m = 2^p (one byte per
register).  m is stored in the source as this.m = 1 << precision and is
recomputed here as 2^p. -/

structure HyperLogLog where
  p : Nat
  registers : List Nat
  deriving DecidableEq, Repr

def HyperLogLog.init (precision : Nat := 14) : HyperLogLog :=
  ⟨precision, List.replicate (2 ^ precision) 0⟩

def HyperLogLog.m (h : HyperLogLog) : Nat := 2 ^ h.p

/-- _computeAlpha(): literal constants for m in {16, 32, 64}, otherwise
0.7213 / (1 + 1.079 / m).  Floating point modelled as exact reals. -/
noncomputable def alphaOf (m : Nat) : ℝ :=
  if m = 16 then 0.673
  else if m = 32 then 0.697
  else if m = 64 then 0.709
  else 0.7213 / (1 + 1.079 / (m : ℝ))

/-- The source loop "let position = totalBits - 1; while (position >= 0 &&
(bits & (1 << position)) === 0) position--": scan downward from bit k-1 for
the first set bit. -/
def firstOnePos (bits : Nat) : Nat → Option Nat
  | 0 => none
  | k + 1 => if bits &&& (1 <<< k) != 0 then some k else firstOnePos bits k

/-- _countLeadingZeros(bits): 32 - p for bits === 0; otherwise
totalBits - (position + 1) where position indexes the highest set bit
(and totalBits when the loop runs past position 0). -/
def countLeadingZeros (p : Nat) (bits : Nat) : Nat :=
  if bits = 0 then 32 - p
  else
    let totalBits := 32 - p
    match firstOnePos bits totalBits with
    | some position => totalBits - (position + 1)
    | none => totalBits

/-- add(value) on the number path: index = hash >>> (32-p) (via ToUint32),
bits = hash & ((1 << (32-p)) - 1), rank = countLeadingZeros(bits) + 1,
registers[index] = max(registers[index], rank).  Faithful for 1 <= p <= 31
(JS shift counts are taken mod 32, which never bites in that range). -/
def HyperLogLog.add (h : HyperLogLog) (value : Int) : HyperLogLog :=
  let hu := toUint32 value
  let index := hu >>> (32 - h.p)
  let bits := hu &&& ((1 <<< (32 - h.p)) - 1)
  let leadingZeros := countLeadingZeros h.p bits + 1
  if leadingZeros > h.registers.getD index 0 then
    { h with registers := h.registers.set index leadingZeros }
  else h

def HyperLogLog.reset (h : HyperLogLog) : HyperLogLog :=
  { h with registers := List.replicate h.registers.length 0 }

/-- sum += Math.pow(2, -registers[i]) over all registers.  Exact: 2^-r is
representable in a double for every register value r < 256, and the sum of
at most 2^p such terms is modelled as the exact real sum. -/
noncomputable def hllSum (regs : List Nat) : ℝ :=
  (regs.map (fun (r : Nat) => (2 : ℝ) ^ (-(r : ℤ)))).sum

/-- zeroCount: number of registers equal to 0. -/
def zeroCountOf (regs : List Nat) : Nat := regs.count 0

/-- The uncorrected estimate alpha * m * m / sum. -/
noncomputable def HyperLogLog.rawEstimate (h : HyperLogLog) : ℝ :=
  alphaOf h.m * (h.m : ℝ) * (h.m : ℝ) / hllSum h.registers

/-- JS Math.round for the values arising here: floor(x + 1/2). -/
noncomputable def jsRound (x : ℝ) : Int := ⌊x + 1 / 2⌋

/-- count(): small-range correction m * ln(m / zeroCount) when
estimate <= 2.5 m and some register is zero; otherwise the "large-range"
branch.  NOTE the source writes (1 << 31), which in JS is the SIGNED Int32
-2147483648: the guard estimate > (1 << 31) compares against -2^31 (so it
holds for every positive estimate), -(1 << 31) is +2^31, and
1 - estimate / (1 << 31) is 1 + estimate / 2^31.  The constants below are
that JS value, written out. -/
noncomputable def HyperLogLog.count (h : HyperLogLog) : Int :=
  let m : ℝ := (h.m : ℝ)
  let zeroCount := zeroCountOf h.registers
  let estimate := h.rawEstimate
  let corrected : ℝ :=
    if estimate ≤ 2.5 * m then
      (if 0 < zeroCount then m * Real.log (m / (zeroCount : ℝ)) else estimate)
    else if estimate > (-2147483648 : ℝ) then
      -(-2147483648 : ℝ) * Real.log (1 - estimate / (-2147483648 : ℝ))
    else estimate
  jsRound corrected

/-- merge(other): element-wise max, precision mismatch is an error. -/
def HyperLogLog.merge (h other : HyperLogLog) : Except String HyperLogLog :=
  if h.m ≠ other.m then .error "Precision mismatch"
  else .ok { h with registers :=
    (List.range h.registers.length).map (fun i =>
      max (h.registers.getD i 0) (other.registers.getD i 0)) }

def HyperLogLog.toHex (h : HyperLogLog) : List Char := bytesToHex h.registers

def HyperLogLog.toCompressedHex (h : HyperLogLog) : List Char :=
  match lastNonZeroIndex h.registers with
  | none => []
  | some k => bytesToHex (h.registers.take (k + 1))

/-- _fromHex: validates the character set, then requires exactly
Math.ceil(this.m / 8) * 2 characters -- the BYTE-count formula copied from
Bitmap, although this.registers has m entries (one byte per register), so
_toHex emits 2*m characters.  On success the source loops i over
registers.length reading substr(2*i, 2); for 2*i past the string end
parseInt("", 16) is NaN and storing NaN in a Uint8Array yields 0, which is
what getD with the '0' default produces here. -/
def HyperLogLog.fromHex (h : HyperLogLog) (s : List Char) : Option String × HyperLogLog :=
  if ¬ s.all isHexDigit then (some "Invalid hexadecimal string", h)
  else if s.length ≠ ((2 ^ h.p + 7) / 8) * 2 then (some "Hex string length mismatch", h)
  else (none, { h with registers := (List.range h.registers.length).map (hexByteAt s) })

/-- _fromCompressedHex: this.reset() FIRST, then validation, then fill. -/
def HyperLogLog.fromCompressedHex (h : HyperLogLog) (s : List Char) :
    Option String × HyperLogLog :=
  let h0 := h.reset
  if s.isEmpty then (none, h0)
  else if ¬ s.all isHexDigit then (some "Invalid hexadecimal string", h0)
  else if s.length % 2 ≠ 0 then (some "Hex string length must be even", h0)
  else if s.length / 2 > h.registers.length then
    (some "Compressed hex string too long for bitmap size", h0)
  else (none, { h with registers := (List.range h.registers.length).map (fun i =>
    if i < s.length / 2 then hexByteAt s i else 0) })

def HyperLogLog.toHexStr (h : HyperLogLog) (compress : Nat := 1) : List Char :=
  if compress = 0 then h.toHex else h.toCompressedHex

def HyperLogLog.fromHexStr (h : HyperLogLog) (s : List Char) (compress : Nat := 1) :
    Option String × HyperLogLog :=
  if compress = 0 then h.fromHex s else h.fromCompressedHex s

/-! ## UvCounter (src/counter/uvcounter.ts)

CountType is a numeric enum: set = 0, bit = 1, llm = 2.  The stored tag is a
plain number (fromJSON copies whatever number the envelope carries), so it is
modelled as a Nat.  The active container is one of the three tier objects. -/

def SET_START : Int := 0
def BIT_START : Int := 512
def LLM_START : Int := 16384

inductive Counter where
  | set (s : SetCounter)
  | bit (b : Bitmap)
  | llm (h : HyperLogLog)
  deriving DecidableEq, Repr

/-- this.counter.add(value).  SetCounter.add and HyperLogLog.add are total;
Bitmap.add (spec-modelled, see above) range-checks. -/
def Counter.add (c : Counter) (v : Int) : Except String Counter :=
  match c with
  | .set s => .ok (.set (s.add v))
  | .bit b => if v < 0 then .error "Position out of range"
              else (b.add v.toNat).map .bit
  | .llm h => .ok (.llm (h.add v))

/-- this.counter.count(). -/
noncomputable def Counter.count : Counter → Int
  | .set s => s.count
  | .bit b => b.count
  | .llm h => h.count

/-- The duck-typed (this.counter as SetCounter).valueList() used by
_set2bit and _bit2llm: SetCounter has valueList, Bitmap's is the
spec-modelled getPositions, and HyperLogLog has NO valueList method in the
source, so the call is a JS TypeError. -/
def Counter.valueListJS (c : Counter) : Except String (List Int) :=
  match c with
  | .set s => .ok s.valueList
  | .bit b => .ok (b.valueList.map Int.ofNat)
  | .llm _ => .error "TypeError: this.counter.valueList is not a function"

structure UvCounter where
  type : Nat
  counter : Counter
  deriving DecidableEq, Repr

/-- constructor(type = CountType.set): stores the given tag but ALWAYS
creates a SetCounter, whatever the tag says. -/
def UvCounter.new (type : Nat := 0) : UvCounter := ⟨type, .set SetCounter.new⟩

noncomputable def UvCounter.count (uv : UvCounter) : Int := uv.counter.count

/-- static fromJSON: new UvCounter(data.type) followed by
uv.counter.fromJson(data.data).  The freshly built counter is a SetCounter
regardless of the tag, so the data is loaded by SetCounter.fromJson; no
validation of the tag happens.  (The payload is modelled as the integer
array the Exact tier serializes to; a hex-string payload would likewise be
fed to SetCounter.fromJson, yielding a set of characters.) -/
def UvCounter.fromJSON (type : Nat) (data : List Int) : UvCounter :=
  { type := type, counter := .set (SetCounter.fromJson data) }

/-- forEach over valueList in _set2bit / promotion loops. -/
def bitmapAddAll (b : Bitmap) (vs : List Nat) : Except String Bitmap :=
  vs.foldlM (fun bb v => bb.add v) b

/-- _set2bit: new Bitmap(LLM_START); for each retained value val,
bitmap.add(val & ((1 << 10) - 1)); then type := bit. -/
def UvCounter.set2bit (uv : UvCounter) : Except String UvCounter := do
  let vs ← uv.counter.valueListJS
  let bm ← bitmapAddAll (Bitmap.new 16384) (vs.map (fun val => jsAnd val 0x3ff))
  .ok { type := 1, counter := .bit bm }

/-- _bit2llm: new HyperLogLog() (precision 14); hll.add(val) for each
retained value; then type := llm. -/
def UvCounter.bit2llm (uv : UvCounter) : Except String UvCounter := do
  let vs ← uv.counter.valueListJS
  .ok { type := 2, counter := .llm (vs.foldl (fun h v => h.add v) (HyperLogLog.init 14)) }

/-- _updateType: promote when count lands in [BIT_START, LLM_START) and the
tag is not bit, else when count >= LLM_START - 2 and the tag is not llm. -/
noncomputable def UvCounter.updateType (uv : UvCounter) : Except String UvCounter :=
  let count := uv.count
  if BIT_START ≤ count ∧ count < LLM_START ∧ uv.type ≠ 1 then uv.set2bit
  else if LLM_START - 2 ≤ count ∧ uv.type ≠ 2 then uv.bit2llm
  else .ok uv

/-- add(clientId): hash at the current tier's width (9 bits for set, 14 for
bit, 32 otherwise), insert into the active container, then _updateType. -/
noncomputable def UvCounter.add (uv : UvCounter) (clientId : List Nat) :
    Except String UvCounter := do
  let value : Int :=
    if uv.type = 0 then hash9 clientId
    else if uv.type = 1 then hash14 clientId
    else hash32 clientId
  let c ← uv.counter.add value
  UvCounter.updateType { uv with counter := c }

/-- A whole sequence of add calls (errors propagate, as in JS). -/
noncomputable def uvAddAll (uv : UvCounter) (ids : List (List Nat)) :
    Except String UvCounter :=
  ids.foldlM (fun u id => u.add id) uv

/-! ## Basic numeric lemmas -/

/-! ## The Exact-tier reachability invariant -/

/-- Invariant carried by every counter reachable from a fresh UvCounter by a
sequence of add calls over the identifiers ids: in the Exact tier the
container holds distinct 9-bit hash values of seen identifiers, fewer than
512 of them; once promoted, every one of the 512 possible 9-bit hash values
has been observed among ids. -/
def Inv (uv : UvCounter) (ids : List (List Nat)) : Prop :=
  match uv.counter with
  | .set s => uv.type = 0 ∧ s.container.Nodup ∧
      (∀ v ∈ s.container, 0 ≤ v ∧ v < 512) ∧ s.count ≤ 511 ∧
      (∀ v ∈ s.container, ∃ id ∈ ids, ((hash9 id : Nat) : Int) = v)
  | .bit _ => uv.type = 1 ∧
      (∀ n : Int, 0 ≤ n → n < 512 → ∃ id ∈ ids, ((hash9 id : Nat) : Int) = n)
  | .llm _ => uv.type = 2 ∧
      (∀ n : Int, 0 ≤ n → n < 512 → ∃ id ∈ ids, ((hash9 id : Nat) : Int) = n)

theorem toUint32_natCast {v : Nat} (h : v < 4294967296) : toUint32 (v : Int) = v := by
  unfold toUint32
  rw [Int.emod_eq_of_lt (by omega) (by omega)]
  exact Int.toNat_natCast v

theorem jsAnd_natCast {v : Nat} (m : Nat) (h : v < 4294967296) :
    jsAnd (v : Int) m = v &&& m := by
  unfold jsAnd
  rw [toUint32_natCast h]

theorem toInt32_range (n : Int) :
    -2147483648 ≤ toInt32 n ∧ toInt32 n < 2147483648 := by
  unfold toInt32
  have h0 : (0 : Int) ≤ n % 4294967296 := Int.emod_nonneg n (by norm_num)
  have h1 : n % 4294967296 < 4294967296 := Int.emod_lt_of_pos n (by norm_num)
  dsimp only
  split <;> omega

theorem and_lt_512 (x : Nat) : x &&& 0x1ff < 512 := by
  have : (0x1ff : Nat) = 2 ^ 9 - 1 := by norm_num
  rw [this, Nat.and_pow_two_sub_one_eq_mod]
  exact Nat.mod_lt _ (by norm_num)

theorem and_lt_16384 (x : Nat) : x &&& 0x3fff < 16384 := by
  have : (0x3fff : Nat) = 2 ^ 14 - 1 := by norm_num
  rw [this, Nat.and_pow_two_sub_one_eq_mod]
  exact Nat.mod_lt _ (by norm_num)

theorem hash9_lt (s : List Nat) : hash9 s < 512 := by
  unfold hash9
  have step : ∀ (l : List Nat) (init : Nat), init < 512 →
      l.foldl (fun h c => ((h <<< 3) + c) &&& 0x1ff) init < 512 := by
    intro l
    induction l with
    | nil => intro init hi; simpa using hi
    | cons c cs ih =>
      intro init _
      exact ih _ (and_lt_512 _)
  exact step s 0 (by norm_num)

theorem hash14_lt (s : List Nat) : hash14 s < 16384 := by
  unfold hash14
  have step : ∀ (l : List Nat) (init : Nat), init < 16384 →
      l.foldl (fun h c => (13 * h + c) &&& 0x3fff) init < 16384 := by
    intro l
    induction l with
    | nil => intro init hi; simpa using hi
    | cons c cs ih =>
      intro init _
      exact ih _ (and_lt_16384 _)
  exact step s 0 (by norm_num)

theorem hash32_range (s : List Nat) :
    -2147483648 ≤ hash32 s ∧ hash32 s < 2147483648 := by
  unfold hash32
  have step : ∀ (l : List Nat) (init : Int),
      -2147483648 ≤ init ∧ init < 2147483648 →
      -2147483648 ≤ l.foldl (fun h c => toInt32 (toInt32 (h * 32) - h + c)) init ∧
        l.foldl (fun h c => toInt32 (toInt32 (h * 32) - h + c)) init < 2147483648 := by
    intro l
    induction l with
    | nil => intro init hi; simpa using hi
    | cons c cs ih =>
      intro init _
      exact ih _ (toInt32_range _)
  exact step s 0 (by norm_num)

theorem hash9_single (c : Nat) : hash9 [c] = c % 512 := by
  show ((0 <<< 3) + c) &&& 0x1ff = c % 512
  have : (0x1ff : Nat) = 2 ^ 9 - 1 := by norm_num
  rw [this, Nat.and_pow_two_sub_one_eq_mod]
  norm_num

theorem hash14_single (c : Nat) : hash14 [c] = c % 16384 := by
  show (13 * 0 + c) &&& 0x3fff = c % 16384
  have : (0x3fff : Nat) = 2 ^ 14 - 1 := by norm_num
  rw [this, Nat.and_pow_two_sub_one_eq_mod]
  norm_num

/-! ## SetCounter lemmas -/

theorem SetCounter.add_of_mem (s : SetCounter) (v : Int) (h : v ∈ s.container) :
    s.add v = s := by
  unfold SetCounter.add
  rw [if_pos h]

theorem SetCounter.add_of_not_mem (s : SetCounter) (v : Int) (h : v ∉ s.container) :
    s.add v = ⟨s.container ++ [v]⟩ := by
  unfold SetCounter.add
  rw [if_neg h]

theorem SetCounter.fromJson_of_nodup {l : List Int} (h : l.Nodup) :
    SetCounter.fromJson l = ⟨l⟩ := by
  unfold SetCounter.fromJson
  have aux : ∀ (l acc : List Int), l.Nodup → (∀ v ∈ l, v ∉ acc) →
      l.foldl (fun cur v => if v ∈ cur then cur else cur ++ [v]) acc = acc ++ l := by
    intro l
    induction l with
    | nil => intro acc _ _; simp
    | cons v vs ih =>
      intro acc hnd hdisj
      rw [List.nodup_cons] at hnd
      obtain ⟨hvm, hvs⟩ := hnd
      have hv : v ∉ acc := hdisj v (by simp)
      have step : (if v ∈ acc then acc else acc ++ [v]) = acc ++ [v] := if_neg hv
      rw [List.foldl_cons, step, ih (acc ++ [v]) hvs]
      · simp
      · intro u hu
        simp only [List.mem_append, List.mem_singleton]
        rintro (h1 | h2)
        · exact hdisj u (by simp [hu]) h1
        · exact hvm (h2 ▸ hu)
  rw [aux l [] h (by simp)]
  simp

/-! ## Claim C2 -/

/-- C2: UvCounter.fromJSON does NOT dispatch on the type tag: for a Sketch
envelope (tag 2) it produces a SetCounter loaded by SetCounter.fromJson
rather than a HyperLogLog, and an unknown tag (99) is accepted without any
error, yielding a counter that carries the bogus tag. -/
theorem c2_fromJSON_no_dispatch :
    (UvCounter.fromJSON 2 [7, 7, 3]).counter = Counter.set ⟨[7, 3]⟩ ∧
    UvCounter.fromJSON 99 [] = ⟨99, Counter.set ⟨[]⟩⟩ :=
  ⟨by decide, by decide⟩

/-! ## UvCounter reduction lemmas -/

theorem uvAddAll_nil (uv : UvCounter) : uvAddAll uv [] = .ok uv := rfl

theorem uvAddAll_append (uv : UvCounter) (l l' : List (List Nat)) :
    uvAddAll uv (l ++ l') = uvAddAll uv l >>= fun u => uvAddAll u l' :=
  List.foldlM_append ..

theorem uvAddAll_singleton (uv : UvCounter) (id : List Nat) :
    uvAddAll uv [id] = uv.add id := by
  unfold uvAddAll
  rw [List.foldlM_cons]
  simp only [List.foldlM_nil]
  exact bind_pure _

/-- In the Exact tier, add hashes at 9 bits, inserts, then checks thresholds. -/
theorem uv_add_set (s : SetCounter) (id : List Nat) :
    UvCounter.add ⟨0, .set s⟩ id =
      UvCounter.updateType ⟨0, .set (s.add ((hash9 id : Nat) : Int))⟩ := rfl

theorem count_set (t : Nat) (s : SetCounter) :
    UvCounter.count ⟨t, .set s⟩ = (s.count : Int) := rfl

theorem updateType_set_of_lt (s : SetCounter) (h : s.count < 512) :
    UvCounter.updateType ⟨0, .set s⟩ = .ok ⟨0, .set s⟩ := by
  unfold UvCounter.updateType
  rw [count_set]
  rw [if_neg, if_neg]
  · unfold LLM_START
    push_neg
    intro hc
    omega
  · unfold BIT_START LLM_START
    push_neg
    intro hc
    omega

theorem updateType_set_promote (t : Nat) (s : SetCounter) (ht : t ≠ 1)
    (h : s.count = 512) :
    UvCounter.updateType ⟨t, .set s⟩ = UvCounter.set2bit ⟨t, .set s⟩ := by
  unfold UvCounter.updateType
  rw [count_set]
  have hcond : BIT_START ≤ (s.count : Int) ∧ (s.count : Int) < LLM_START ∧
      (UvCounter.mk t (.set s)).type ≠ 1 := by
    refine ⟨?_, ?_, ?_⟩
    · unfold BIT_START; omega
    · unfold LLM_START; omega
    · exact ht
  rw [if_pos hcond]

theorem set2bit_set (t : Nat) (s : SetCounter) :
    UvCounter.set2bit ⟨t, .set s⟩ =
      bitmapAddAll (Bitmap.new 16384) (s.container.map (fun val => jsAnd val 0x3ff)) >>=
        fun bm => .ok ⟨1, .bit bm⟩ := rfl

theorem jsAnd_lt_1024 (v : Int) : jsAnd v 0x3ff < 1024 :=
  Nat.lt_succ_of_le (Nat.and_le_right)

theorem bitmapAddAll_ok :
    ∀ (vs : List Nat) (b : Bitmap), (∀ v ∈ vs, v < b.size) →
      ∃ bm, bitmapAddAll b vs = .ok bm ∧ bm.size = b.size := by
  intro vs
  induction vs with
  | nil => intro b _; exact ⟨b, rfl, rfl⟩
  | cons v vs ih =>
    intro b hb
    have hv : v < b.size := hb v (by simp)
    have hset : b.add v = .ok (b.setUnchecked v) := by
      unfold Bitmap.add Bitmap.set
      rw [if_pos hv]
    have hsz0 : (b.setUnchecked v).size = b.size := rfl
    obtain ⟨bm, heq, hsz⟩ := ih (b.setUnchecked v)
      (fun v' hv' => hsz0 ▸ hb v' (by simp [hv']))
    refine ⟨bm, ?_, by rw [hsz, hsz0]⟩
    unfold bitmapAddAll at heq ⊢
    rw [List.foldlM_cons, hset]
    exact heq

/-- Trajectory through the Exact tier: adding the single-code-unit
identifiers with codes 0, 1, ..., k-1 (k at most 511) leaves the controller
in the Exact tier holding exactly those k hash values. -/
theorem setPhase : ∀ k, k ≤ 511 →
    uvAddAll UvCounter.new ((List.range k).map (fun c => [c])) =
      .ok ⟨0, .set ⟨(List.range k).map ((↑·) : ℕ → ℤ)⟩⟩ := by
  intro k
  induction k with
  | zero => intro _; rfl
  | succ k ih =>
    intro hk
    rw [List.range_succ, List.map_append, uvAddAll_append, ih (by omega)]
    show uvAddAll _ [[k]] = _
    rw [uvAddAll_singleton, uv_add_set]
    have hh : hash9 [k] = k := by rw [hash9_single]; omega
    have hmem : ((k : Nat) : Int) ∉ (List.range k).map ((↑·) : ℕ → ℤ) := by
      simp only [List.mem_map, List.mem_range]
      rintro ⟨a, ha, hae⟩
      have : a = k := by exact_mod_cast hae
      omega
    rw [hh, SetCounter.add_of_not_mem _ _ hmem]
    have hcnt : (SetCounter.mk ((List.range k).map ((↑·) : ℕ → ℤ) ++ [((k : Nat) : Int)])).count
        < 512 := by
      unfold SetCounter.count
      rw [List.length_append, List.length_map, List.length_range]
      simp
      omega
    rw [updateType_set_of_lt _ hcnt]
    have harr : (List.range k).map ((↑·) : ℕ → ℤ) ++ [((k : Nat) : Int)] =
        (List.range (k + 1)).map ((↑·) : ℕ → ℤ) := by
      rw [List.range_succ, List.map_append]
      rfl
    rw [harr, List.range_succ]

theorem nodup_singletonIds (n : Nat) : ((List.range n).map (fun c => [c])).Nodup := by
  refine (List.nodup_map_iff ?_).mpr (List.nodup_range n)
  intro a b h
  simpa using h

/-! ## Claim C3 -/

/-- C3 counterexample: 512 pairwise-distinct identifiers (the single
code-unit strings 0..510 together with the single code-unit 512) do NOT
trigger promotion: codes 0 and 512 share the 9-bit hash 0, so after all 512
distinct values the controller is still in the Exact tier (tag 0). -/
theorem c3_counterexample :
    ((List.range 511).map (fun c => [c]) ++ [[512]]).Nodup ∧
    ((List.range 511).map (fun c => [c]) ++ [[512]]).length = 512 ∧
    (uvAddAll UvCounter.new ((List.range 511).map (fun c => [c]) ++ [[512]])).map
      UvCounter.type = .ok 0 := by
  refine ⟨?_, by simp, ?_⟩
  · rw [List.nodup_append]
    refine ⟨nodup_singletonIds 511, List.nodup_singleton _, ?_⟩
    intro x hx
    simp only [List.mem_map, List.mem_range] at hx
    obtain ⟨c, hc, rfl⟩ := hx
    simp only [List.mem_singleton, List.cons.injEq, and_true]
    omega
  · rw [uvAddAll_append, setPhase 511 (by omega)]
    show (uvAddAll ⟨0, .set ⟨(List.range 511).map ((↑·) : ℕ → ℤ)⟩⟩ [[512]]).map
      UvCounter.type = .ok 0
    rw [uvAddAll_singleton, uv_add_set]
    have h1 : hash9 [512] = 0 := by rw [hash9_single]
    have hmem : ((hash9 [512] : Nat) : Int) ∈ (List.range 511).map ((↑·) : ℕ → ℤ) := by
      rw [h1]
      simp only [List.mem_map, List.mem_range]
      exact ⟨0, by omega, rfl⟩
    rw [SetCounter.add_of_mem ⟨(List.range 511).map ((↑·) : ℕ → ℤ)⟩ (((hash9 [512] : Nat) : Int)) hmem]
    have hcnt : (SetCounter.mk ((List.range 511).map ((↑·) : ℕ → ℤ))).count < 512 := by
      unfold SetCounter.count
      simp
    rw [updateType_set_of_lt _ hcnt]
    rfl

/-- C3 (amended): in the Exact tier with T_bitmap = 512, an add whose
resulting DISTINCT 9-BIT HASH count stays below 512 leaves the controller in
the Exact tier; the add that brings the hash count to exactly 512 (possible
only when all 512 hash values have been seen) promotes to the Bitmap tier,
the promotion completing normally with a bitmap built from the retained
hash values.  "Distinct values" must be read as distinct 9-bit hash values,
not distinct identifiers. -/
theorem c3_exact_tier_promotion (uv : UvCounter) (s : SetCounter) (id : List Nat)
    (ht : uv.type = 0) (hc : uv.counter = .set s) :
    ((s.add ((hash9 id : Nat) : Int)).count < 512 →
      uv.add id = .ok ⟨0, .set (s.add ((hash9 id : Nat) : Int))⟩) ∧
    ((s.add ((hash9 id : Nat) : Int)).count = 512 →
      ∃ bm, uv.add id = .ok ⟨1, .bit bm⟩ ∧
        bitmapAddAll (Bitmap.new 16384)
          ((s.add ((hash9 id : Nat) : Int)).container.map (fun val => jsAnd val 0x3ff)) =
          .ok bm) := by
  obtain ⟨t, c⟩ := uv
  have ht' : t = 0 := ht
  have hc' : c = .set s := hc
  subst ht' hc'
  constructor
  · intro hlt
    rw [uv_add_set, updateType_set_of_lt _ hlt]
  · intro heq
    have hvals : ∀ v ∈ (s.add ((hash9 id : Nat) : Int)).container.map
        (fun val => jsAnd val 0x3ff), v < (Bitmap.new 16384).size := by
      intro v hv
      simp only [List.mem_map] at hv
      obtain ⟨w, _, rfl⟩ := hv
      have := jsAnd_lt_1024 w
      show jsAnd w 0x3ff < 16384
      omega
    obtain ⟨bm, heq2, _⟩ := bitmapAddAll_ok _ _ hvals
    refine ⟨bm, ?_, heq2⟩
    rw [uv_add_set, updateType_set_promote 0 _ (by omega) heq, set2bit_set, heq2]
    rfl

/-- C3 witness: a concrete Exact-tier state holding the 511 hash values
0..510; adding the identifier with code unit 511 brings the hash count to
512 and promotes to the Bitmap tier. -/
theorem c3_exact_tier_promotion_witness :
    ((SetCounter.mk ((List.range 511).map ((↑·) : ℕ → ℤ))).add
      ((hash9 [511] : Nat) : Int)).count = 512 ∧
    ∃ bm, UvCounter.add ⟨0, .set ⟨(List.range 511).map ((↑·) : ℕ → ℤ)⟩⟩ [511] =
      .ok ⟨1, .bit bm⟩ ∧
      bitmapAddAll (Bitmap.new 16384)
        (((SetCounter.mk ((List.range 511).map ((↑·) : ℕ → ℤ))).add
          ((hash9 [511] : Nat) : Int)).container.map (fun val => jsAnd val 0x3ff)) =
        .ok bm := by
  have h1 : hash9 [511] = 511 := by rw [hash9_single]
  have hmem : ((hash9 [511] : Nat) : Int) ∉ (List.range 511).map ((↑·) : ℕ → ℤ) := by
    rw [h1]
    simp only [List.mem_map, List.mem_range]
    rintro ⟨a, ha, hae⟩
    have : a = 511 := by exact_mod_cast hae
    omega
  have hcnt : ((SetCounter.mk ((List.range 511).map ((↑·) : ℕ → ℤ))).add
      ((hash9 [511] : Nat) : Int)).count = 512 := by
    rw [SetCounter.add_of_not_mem ⟨(List.range 511).map ((↑·) : ℕ → ℤ)⟩ _ hmem]
    unfold SetCounter.count
    simp
  exact ⟨hcnt, (c3_exact_tier_promotion _ _ _ rfl rfl).2 hcnt⟩

/-! ## More step lemmas (Bitmap and Sketch tiers) -/

theorem uv_add_bit (b : Bitmap) (id : List Nat) :
    UvCounter.add ⟨1, .bit b⟩ id =
      Counter.add (.bit b) ((hash14 id : Nat) : Int) >>=
        fun c => UvCounter.updateType ⟨1, c⟩ := rfl

theorem uv_add_llm (h : HyperLogLog) (id : List Nat) :
    UvCounter.add ⟨2, .llm h⟩ id =
      UvCounter.updateType ⟨2, .llm (h.add (hash32 id))⟩ := rfl

theorem counter_add_bit (b : Bitmap) (n : Nat) :
    Counter.add (.bit b) ((n : Nat) : Int) = (b.add n).map .bit := by
  show (if ((n : Nat) : Int) < 0 then Except.error "Position out of range"
      else ((b.add ((n : Nat) : Int).toNat).map Counter.bit)) = (b.add n).map Counter.bit
  rw [if_neg (by omega), Int.toNat_natCast]

theorem count_bit (t : Nat) (b : Bitmap) :
    UvCounter.count ⟨t, .bit b⟩ = (b.count : Int) := rfl

theorem updateType_bit_stay (b : Bitmap) (h : (b.count : Int) < 16382) :
    UvCounter.updateType ⟨1, .bit b⟩ = .ok ⟨1, .bit b⟩ := by
  unfold UvCounter.updateType
  rw [count_bit]
  rw [if_neg, if_neg]
  · unfold LLM_START
    push_neg
    intro hc
    omega
  · unfold BIT_START LLM_START
    rintro ⟨-, -, hne⟩
    exact hne rfl

theorem updateType_bit_promote (b : Bitmap) (h : 16382 ≤ (b.count : Int)) :
    UvCounter.updateType ⟨1, .bit b⟩ = UvCounter.bit2llm ⟨1, .bit b⟩ := by
  unfold UvCounter.updateType
  rw [count_bit]
  rw [if_neg, if_pos]
  · refine ⟨?_, ?_⟩
    · unfold LLM_START; omega
    · show (1 : Nat) ≠ 2; omega
  · unfold BIT_START LLM_START
    rintro ⟨-, -, hne⟩
    exact hne rfl

theorem bit2llm_bit (t : Nat) (b : Bitmap) :
    UvCounter.bit2llm ⟨t, .bit b⟩ =
      .ok ⟨2, .llm ((b.valueList.map ((↑·) : ℕ → ℤ)).foldl
        (fun h v => h.add v) (HyperLogLog.init 14))⟩ := rfl

theorem set2bit_llm (t : Nat) (h : HyperLogLog) :
    UvCounter.set2bit ⟨t, .llm h⟩ =
      .error "TypeError: this.counter.valueList is not a function" := rfl

theorem Inv.mono {uv : UvCounter} {ids ids' : List (List Nat)}
    (hsub : ∀ id ∈ ids, id ∈ ids') (h : Inv uv ids) : Inv uv ids' := by
  obtain ⟨t, c⟩ := uv
  cases c with
  | set s =>
    obtain ⟨h1, h2, h3, h4, h5⟩ := h
    exact ⟨h1, h2, h3, h4, fun v hv => by
      obtain ⟨id, hid, he⟩ := h5 v hv
      exact ⟨id, hsub id hid, he⟩⟩
  | bit b =>
    obtain ⟨h1, h2⟩ := h
    exact ⟨h1, fun n hn0 hn1 => by
      obtain ⟨id, hid, he⟩ := h2 n hn0 hn1
      exact ⟨id, hsub id hid, he⟩⟩
  | llm hh =>
    obtain ⟨h1, h2⟩ := h
    exact ⟨h1, fun n hn0 hn1 => by
      obtain ⟨id, hid, he⟩ := h2 n hn0 hn1
      exact ⟨id, hsub id hid, he⟩⟩

theorem SetCounter.add_count_le (s : SetCounter) (v : Int) :
    (s.add v).count ≤ s.count + 1 := by
  unfold SetCounter.add SetCounter.count
  split
  · omega
  · simp

theorem SetCounter.add_nodup {s : SetCounter} (h : s.container.Nodup) (v : Int) :
    (s.add v).container.Nodup := by
  unfold SetCounter.add
  split
  · exact h
  · rename_i hmem
    simp [List.nodup_append, h, hmem]

theorem SetCounter.mem_add {s : SetCounter} {v u : Int}
    (h : u ∈ (s.add v).container) : u ∈ s.container ∨ u = v := by
  unfold SetCounter.add at h
  split at h
  · exact .inl h
  · rcases List.mem_append.mp h with h1 | h2
    · exact .inl h1
    · exact .inr (by simpa using h2)

/-- The full-coverage step: a 512-element duplicate-free list of integers
all lying in [0, 512) contains every integer in [0, 512). -/
theorem coverage_of_card {l : List Int} (hnd : l.Nodup)
    (hrange : ∀ v ∈ l, 0 ≤ v ∧ v < 512) (hlen : l.length = 512) :
    ∀ n : Int, 0 ≤ n → n < 512 → n ∈ l := by
  intro n hn0 hn1
  have hsub : l.toFinset ⊆ Finset.Icc (0 : ℤ) 511 := by
    intro x hx
    rw [List.mem_toFinset] at hx
    obtain ⟨hx0, hx1⟩ := hrange x hx
    rw [Finset.mem_Icc]
    omega
  have hcard : l.toFinset.card = 512 := by
    rw [List.toFinset_card_of_nodup hnd, hlen]
  have hicc : (Finset.Icc (0 : ℤ) 511).card = 512 := by
    rw [Int.card_Icc]
    rfl
  have heq : l.toFinset = Finset.Icc (0 : ℤ) 511 :=
    Finset.eq_of_subset_of_card_le hsub (by omega)
  have : n ∈ l.toFinset := by
    rw [heq, Finset.mem_Icc]
    omega
  exact List.mem_toFinset.mp this

/-- One add call preserves the invariant. -/
theorem Inv.step {uv : UvCounter} {ids : List (List Nat)} {id : List Nat}
    {uv' : UvCounter} (hinv : Inv uv ids) (hadd : uv.add id = .ok uv') :
    Inv uv' (ids ++ [id]) := by
  obtain ⟨t, c⟩ := uv
  cases c with
  | set s =>
    obtain ⟨h1, h2, h3, h4, h5⟩ := hinv
    have ht : t = 0 := h1
    subst ht
    rw [uv_add_set] at hadd
    set v : Int := ((hash9 id : Nat) : Int) with hv
    have hcle : (s.add v).count ≤ 512 := by
      have := SetCounter.add_count_le s v
      omega
    have hval : ∀ u ∈ (s.add v).container, 0 ≤ u ∧ u < 512 := by
      intro u hu
      rcases SetCounter.mem_add hu with h | h
      · exact h3 u h
      · subst h
        have := hash9_lt id
        rw [hv]
        constructor
        · positivity
        · exact_mod_cast this
    have hprov : ∀ u ∈ (s.add v).container, ∃ i ∈ ids ++ [id],
        ((hash9 i : Nat) : Int) = u := by
      intro u hu
      rcases SetCounter.mem_add hu with h | h
      · obtain ⟨i, hi, he⟩ := h5 u h
        exact ⟨i, List.mem_append.mpr (.inl hi), he⟩
      · exact ⟨id, List.mem_append.mpr (.inr (by simp)), h.symm⟩
    by_cases hc : (s.add v).count < 512
    · rw [updateType_set_of_lt _ hc] at hadd
      obtain rfl := (Except.ok.injEq _ _).mp hadd
      exact ⟨rfl, SetCounter.add_nodup h2 v, hval, by omega, hprov⟩
    · have hc512 : (s.add v).count = 512 := by omega
      rw [updateType_set_promote 0 _ (by omega) hc512, set2bit_set] at hadd
      cases hbm : bitmapAddAll (Bitmap.new 16384)
          ((s.add v).container.map (fun val => jsAnd val 0x3ff)) with
      | error e =>
        rw [hbm] at hadd
        have hred : (Except.error e : Except String Bitmap) >>=
            (fun bm => (Except.ok ⟨1, .bit bm⟩ : Except String UvCounter)) =
            (Except.error e : Except String UvCounter) := rfl
        rw [hred] at hadd
        cases hadd
      | ok bm =>
        rw [hbm] at hadd
        obtain rfl := (Except.ok.injEq _ _).mp hadd
        refine ⟨rfl, ?_⟩
        intro n hn0 hn1
        have hmem : n ∈ (s.add v).container :=
          coverage_of_card (SetCounter.add_nodup h2 v) hval hc512 n hn0 hn1
        exact hprov n hmem
  | bit b =>
    obtain ⟨h1, h2⟩ := hinv
    have ht : t = 1 := h1
    subst ht
    rw [uv_add_bit, counter_add_bit] at hadd
    have h2' : ∀ n : Int, 0 ≤ n → n < 512 → ∃ i ∈ ids ++ [id],
        ((hash9 i : Nat) : Int) = n := by
      intro n hn0 hn1
      obtain ⟨i, hi, he⟩ := h2 n hn0 hn1
      exact ⟨i, List.mem_append.mpr (.inl hi), he⟩
    cases hb : b.add (hash14 id) with
    | error e =>
      rw [hb] at hadd
      have hred : (Except.error e : Except String Bitmap).map Counter.bit >>=
          (fun c => UvCounter.updateType ⟨1, c⟩) =
          (Except.error e : Except String UvCounter) := rfl
      rw [hred] at hadd
      cases hadd
    | ok bb =>
      rw [hb] at hadd
      show Inv uv' (ids ++ [id])
      by_cases hcnt : (bb.count : Int) < 16382
      · rw [show (Except.ok bb).map Counter.bit >>= (fun c => UvCounter.updateType ⟨1, c⟩) =
            UvCounter.updateType ⟨1, .bit bb⟩ from rfl,
          updateType_bit_stay bb hcnt] at hadd
        obtain rfl := (Except.ok.injEq _ _).mp hadd
        exact ⟨rfl, h2'⟩
      · rw [show (Except.ok bb).map Counter.bit >>= (fun c => UvCounter.updateType ⟨1, c⟩) =
            UvCounter.updateType ⟨1, .bit bb⟩ from rfl,
          updateType_bit_promote bb (by omega), bit2llm_bit] at hadd
        obtain rfl := (Except.ok.injEq _ _).mp hadd
        exact ⟨rfl, h2'⟩
  | llm hh =>
    obtain ⟨h1, h2⟩ := hinv
    have ht : t = 2 := h1
    subst ht
    rw [uv_add_llm] at hadd
    have h2' : ∀ n : Int, 0 ≤ n → n < 512 → ∃ i ∈ ids ++ [id],
        ((hash9 i : Nat) : Int) = n := by
      intro n hn0 hn1
      obtain ⟨i, hi, he⟩ := h2 n hn0 hn1
      exact ⟨i, List.mem_append.mpr (.inl hi), he⟩
    set h' := hh.add (hash32 id) with hh'
    unfold UvCounter.updateType at hadd
    by_cases hg1 : BIT_START ≤ UvCounter.count ⟨2, .llm h'⟩ ∧
        UvCounter.count ⟨2, .llm h'⟩ < LLM_START ∧ (UvCounter.mk 2 (.llm h')).type ≠ 1
    · rw [if_pos hg1, set2bit_llm] at hadd
      cases hadd
    · rw [if_neg hg1, if_neg] at hadd
      · obtain rfl := (Except.ok.injEq _ _).mp hadd
        exact ⟨rfl, h2'⟩
      · rintro ⟨-, hne⟩
        exact hne rfl

/-- Folding the invariant along a whole sequence of adds. -/
theorem Inv.fold : ∀ (ids : List (List Nat)) (uv₀ : UvCounter) (acc : List (List Nat)),
    Inv uv₀ acc → ∀ uv, uvAddAll uv₀ ids = .ok uv → Inv uv (acc ++ ids) := by
  intro ids
  induction ids with
  | nil =>
    intro uv₀ acc hinv uv h
    rw [uvAddAll_nil] at h
    obtain rfl := (Except.ok.injEq _ _).mp h
    simpa using hinv
  | cons id ids ih =>
    intro uv₀ acc hinv uv h
    have hcons : uvAddAll uv₀ (id :: ids) = uv₀.add id >>= fun u => uvAddAll u ids := by
      unfold uvAddAll
      rw [List.foldlM_cons]
    rw [hcons] at h
    cases hstep : uv₀.add id with
    | error e =>
      rw [hstep] at h
      have hred : (Except.error e : Except String UvCounter) >>=
          (fun u => uvAddAll u ids) = (Except.error e : Except String UvCounter) := rfl
      rw [hred] at h
      cases h
    | ok u =>
      rw [hstep] at h
      have hu : Inv u (acc ++ [id]) := Inv.step hinv hstep
      have := ih u (acc ++ [id]) hu uv h
      simpa using this

/-! ## Claim C10 (counterexample part) -/

/-- C10 counterexample: exactly 512 pairwise-distinct identifiers (single
code units 0..511, whose 9-bit hashes cover all 512 values) DO trigger
promotion out of the Exact tier, so promotion does not require "far more
than 512" distinct identifiers. -/
theorem c10_counterexample :
    ((List.range 512).map (fun c => [c])).Nodup ∧
    ((List.range 512).map (fun c => [c])).length = 512 ∧
    (uvAddAll UvCounter.new ((List.range 512).map (fun c => [c]))).map
      UvCounter.type = .ok 1 := by
  refine ⟨nodup_singletonIds 512, by simp, ?_⟩
  have h512 : List.range 512 = List.range 511 ++ [511] := by
    rw [← List.range_succ]
  rw [h512, List.map_append, uvAddAll_append, setPhase 511 (by omega)]
  show (uvAddAll ⟨0, .set ⟨(List.range 511).map ((↑·) : ℕ → ℤ)⟩⟩ [[511]]).map
    UvCounter.type = .ok 1
  rw [uvAddAll_singleton, uv_add_set]
  have h1 : hash9 [511] = 511 := by rw [hash9_single]
  have hmem : ((hash9 [511] : Nat) : Int) ∉ (List.range 511).map ((↑·) : ℕ → ℤ) := by
    rw [h1]
    simp only [List.mem_map, List.mem_range]
    rintro ⟨a, ha, hae⟩
    have : a = 511 := by exact_mod_cast hae
    omega
  have hcnt : ((SetCounter.mk ((List.range 511).map ((↑·) : ℕ → ℤ))).add
      ((hash9 [511] : Nat) : Int)).count = 512 := by
    rw [SetCounter.add_of_not_mem ⟨(List.range 511).map ((↑·) : ℕ → ℤ)⟩ _ hmem]
    unfold SetCounter.count
    simp
  rw [updateType_set_promote 0 _ (by omega) hcnt, set2bit_set]
  have hvals : ∀ v ∈ ((SetCounter.mk ((List.range 511).map ((↑·) : ℕ → ℤ))).add
      ((hash9 [511] : Nat) : Int)).container.map (fun val => jsAnd val 0x3ff),
      v < (Bitmap.new 16384).size := by
    intro v hv
    simp only [List.mem_map] at hv
    obtain ⟨w, _, rfl⟩ := hv
    have := jsAnd_lt_1024 w
    show jsAnd w 0x3ff < 16384
    omega
  obtain ⟨bm, heq, _⟩ := bitmapAddAll_ok _ _ hvals
  rw [heq]
  rfl

/-- C10 (amended): for every reachable UvCounter, while in the Exact tier
the container holds only 9-bit hash values (so count() never exceeds 512),
and promotion out of the Exact tier happens only once all 512 possible
9-bit hash values have been observed -- hence it needs AT LEAST 512 distinct
identifiers (rather than "far more than 512": exactly 512 suffice when
their hashes are pairwise distinct, see the counterexample). -/
theorem c10_exact_tier_invariant (ids : List (List Nat)) (uv : UvCounter)
    (h : uvAddAll UvCounter.new ids = .ok uv) :
    (∀ s, uv.counter = .set s →
        uv.type = 0 ∧ (∀ v ∈ s.container, 0 ≤ v ∧ v < 512) ∧ s.count ≤ 512) ∧
    (uv.type ≠ 0 →
        (∀ n : Int, 0 ≤ n → n < 512 → ∃ id ∈ ids, ((hash9 id : Nat) : Int) = n) ∧
        512 ≤ ids.toFinset.card) := by
  have hinv0 : Inv UvCounter.new [] := by
    refine ⟨rfl, List.nodup_nil, ?_, ?_, ?_⟩
    · intro v hv
      simp [UvCounter.new, SetCounter.new] at hv
    · show SetCounter.new.count ≤ 511
      unfold SetCounter.new SetCounter.count
      simp
    · intro v hv
      simp [UvCounter.new, SetCounter.new] at hv
  have hinv := Inv.fold ids UvCounter.new [] hinv0 uv h
  rw [List.nil_append] at hinv
  obtain ⟨t, c⟩ := uv
  cases c with
  | set s =>
    obtain ⟨h1, _, h3, h4, _⟩ := hinv
    constructor
    · intro s' hs'
      have : s = s' := by
        injection hs' with he
      subst this
      exact ⟨h1, h3, by omega⟩
    · intro ht
      exact absurd h1 ht
  | bit b =>
    obtain ⟨h1, h2⟩ := hinv
    constructor
    · intro s' hs'
      cases hs'
    · intro _
      refine ⟨h2, ?_⟩
      have hsub : Finset.Icc (0 : ℤ) 511 ⊆
          ids.toFinset.image (fun id => ((hash9 id : Nat) : Int)) := by
        intro n hn
        rw [Finset.mem_Icc] at hn
        obtain ⟨id, hid, he⟩ := h2 n hn.1 (by omega)
        rw [Finset.mem_image]
        exact ⟨id, List.mem_toFinset.mpr hid, he⟩
      have hicc : (Finset.Icc (0 : ℤ) 511).card = 512 := by
        rw [Int.card_Icc]
        rfl
      calc (512 : ℕ) = (Finset.Icc (0 : ℤ) 511).card := hicc.symm
        _ ≤ (ids.toFinset.image (fun id => ((hash9 id : Nat) : Int))).card :=
            Finset.card_le_card hsub
        _ ≤ ids.toFinset.card := Finset.card_image_le
  | llm hh =>
    obtain ⟨h1, h2⟩ := hinv
    constructor
    · intro s' hs'
      cases hs'
    · intro _
      refine ⟨h2, ?_⟩
      have hsub : Finset.Icc (0 : ℤ) 511 ⊆
          ids.toFinset.image (fun id => ((hash9 id : Nat) : Int)) := by
        intro n hn
        rw [Finset.mem_Icc] at hn
        obtain ⟨id, hid, he⟩ := h2 n hn.1 (by omega)
        rw [Finset.mem_image]
        exact ⟨id, List.mem_toFinset.mpr hid, he⟩
      have hicc : (Finset.Icc (0 : ℤ) 511).card = 512 := by
        rw [Int.card_Icc]
        rfl
      calc (512 : ℕ) = (Finset.Icc (0 : ℤ) 511).card := hicc.symm
        _ ≤ (ids.toFinset.image (fun id => ((hash9 id : Nat) : Int))).card :=
            Finset.card_le_card hsub
        _ ≤ ids.toFinset.card := Finset.card_image_le

/-- C10 witness: one add into a fresh counter lands in the Exact tier with
the single hash value 3, and the invariant theorem applies to it. -/
theorem c10_exact_tier_invariant_witness :
    uvAddAll UvCounter.new [[3]] = .ok ⟨0, Counter.set ⟨[((3 : Nat) : Int)]⟩⟩ ∧
    ((∀ s, (UvCounter.mk 0 (Counter.set ⟨[((3 : Nat) : Int)]⟩)).counter = .set s →
        (UvCounter.mk 0 (Counter.set ⟨[((3 : Nat) : Int)]⟩)).type = 0 ∧
        (∀ v ∈ s.container, 0 ≤ v ∧ v < 512) ∧ s.count ≤ 512) ∧
    ((UvCounter.mk 0 (Counter.set ⟨[((3 : Nat) : Int)]⟩)).type ≠ 0 →
        (∀ n : Int, 0 ≤ n → n < 512 → ∃ id ∈ [[3]], ((hash9 id : Nat) : Int) = n) ∧
        512 ≤ ([[3]] : List (List Nat)).toFinset.card)) := by
  have h : uvAddAll UvCounter.new [[3]] =
      .ok ⟨0, Counter.set ⟨[((3 : Nat) : Int)]⟩⟩ := by
    rw [uvAddAll_singleton]
    show UvCounter.add ⟨0, .set SetCounter.new⟩ [3] = _
    rw [uv_add_set]
    have h3 : hash9 [3] = 3 := by rw [hash9_single]
    rw [SetCounter.add_of_not_mem SetCounter.new _ (by simp [SetCounter.new])]
    rw [updateType_set_of_lt _ (by unfold SetCounter.count SetCounter.new; simp)]
    rw [h3]
    rfl
  exact ⟨h, c10_exact_tier_invariant [[3]] _ h⟩

/-! ## Claim C5 -/

theorem uv_add_llmtag_set (s : SetCounter) (id : List Nat) :
    UvCounter.add ⟨2, .set s⟩ id =
      UvCounter.updateType ⟨2, .set (s.add (hash32 id))⟩ := rfl

/-- C5: tier demotion is reachable.  A counter restored by fromJSON from a
Sketch-tagged envelope (tag 2) holding 512 values is in the Sketch tier by
its tag; one further add lands its count in [512, 16384) and, because the
guard only excludes the Bitmap tag, runs the Exact-to-Bitmap conversion:
the counter DEMOTES from tag 2 (Sketch) to tag 1 (Bitmap). -/
theorem c5_sketch_to_bitmap_demotion :
    (UvCounter.fromJSON 2 ((List.range 512).map ((↑·) : ℕ → ℤ))).type = 2 ∧
    ∃ bm, UvCounter.add (UvCounter.fromJSON 2 ((List.range 512).map ((↑·) : ℕ → ℤ)))
      [120] = .ok ⟨1, .bit bm⟩ := by
  refine ⟨rfl, ?_⟩
  have hnd : ((List.range 512).map ((↑·) : ℕ → ℤ)).Nodup := by
    refine (List.nodup_map_iff ?_).mpr (List.nodup_range _)
    intro a b hab
    simpa using hab
  have hfj : UvCounter.fromJSON 2 ((List.range 512).map ((↑·) : ℕ → ℤ)) =
      ⟨2, .set ⟨(List.range 512).map ((↑·) : ℕ → ℤ)⟩⟩ := by
    unfold UvCounter.fromJSON
    rw [SetCounter.fromJson_of_nodup hnd]
  rw [hfj, uv_add_llmtag_set]
  have h120 : hash32 [120] = 120 := by decide
  have hmem : hash32 [120] ∈ (List.range 512).map ((↑·) : ℕ → ℤ) := by
    rw [h120]
    simp only [List.mem_map, List.mem_range]
    exact ⟨120, by omega, rfl⟩
  rw [SetCounter.add_of_mem ⟨(List.range 512).map ((↑·) : ℕ → ℤ)⟩ (hash32 [120]) hmem]
  have hcnt : (SetCounter.mk ((List.range 512).map ((↑·) : ℕ → ℤ))).count = 512 := by
    unfold SetCounter.count
    simp
  rw [updateType_set_promote 2 _ (by omega) hcnt, set2bit_set]
  have hvals : ∀ v ∈ ((List.range 512).map ((↑·) : ℕ → ℤ)).map
      (fun val => jsAnd val 0x3ff), v < (Bitmap.new 16384).size := by
    intro v hv
    simp only [List.mem_map] at hv
    obtain ⟨w, _, rfl⟩ := hv
    have := jsAnd_lt_1024 w
    show jsAnd w 0x3ff < 16384
    omega
  obtain ⟨bm, heq, _⟩ := bitmapAddAll_ok _ _ hvals
  rw [show (SetCounter.mk ((List.range 512).map ((↑·) : ℕ → ℤ))).container =
    (List.range 512).map ((↑·) : ℕ → ℤ) from rfl, heq]
  exact ⟨bm, rfl⟩

/-! ## Claim C6 -/

/-- Unfolded form of HyperLogLog.count. -/
theorem hll_count_eq (h : HyperLogLog) :
    h.count = jsRound (
      if h.rawEstimate ≤ 2.5 * ((h.m : Nat) : ℝ) then
        (if 0 < zeroCountOf h.registers then
          ((h.m : Nat) : ℝ) * Real.log (((h.m : Nat) : ℝ) / (zeroCountOf h.registers : ℝ))
        else h.rawEstimate)
      else if h.rawEstimate > (-2147483648 : ℝ) then
        -(-2147483648 : ℝ) * Real.log (1 - h.rawEstimate / (-2147483648 : ℝ))
      else h.rawEstimate) := rfl

theorem hllSum_replicate (n r : Nat) :
    hllSum (List.replicate n r) = (n : ℝ) * (2 : ℝ) ^ (-(r : ℤ)) := by
  unfold hllSum
  rw [List.map_replicate, List.sum_replicate, nsmul_eq_mul]

/-- The raw estimate of the all-14 register state at precision 4:
0.673 * 16 * 16 / (16 * 2^-14) = 176422.912. -/
theorem c6_rawEstimate :
    (HyperLogLog.mk 4 (List.replicate 16 14)).rawEstimate = 176422.912 := by
  unfold HyperLogLog.rawEstimate
  have hm : (HyperLogLog.mk 4 (List.replicate 16 14)).m = 16 := by
    unfold HyperLogLog.m
    norm_num
  rw [hm]
  show alphaOf 16 * (16 : ℝ) * (16 : ℝ) / hllSum (List.replicate 16 14) = _
  rw [hllSum_replicate]
  unfold alphaOf
  rw [if_pos rfl]
  have hz : (2 : ℝ) ^ (-((14 : Nat) : ℤ)) = 1 / 16384 := by
    rw [zpow_neg, zpow_natCast]
    norm_num
  rw [hz]
  norm_num

/-- C6: with precision 4 and all 16 registers at 14, the raw estimate is
176422.912, strictly between 2.5*m = 40 and 2^31; the claim says count()
returns it rounded (176423), but the code returns a different value: since
(1 << 31) in JS is the SIGNED value -2147483648, the "large-range" branch
fires for every estimate above 2.5*m and computes
2^31 * ln(1 + estimate/2^31) = 176415.66..., so count() is not 176423. -/
theorem c6_large_range_misfires :
    2.5 * 16 < (HyperLogLog.mk 4 (List.replicate 16 14)).rawEstimate ∧
    (HyperLogLog.mk 4 (List.replicate 16 14)).rawEstimate < 2 ^ 31 ∧
    jsRound (HyperLogLog.mk 4 (List.replicate 16 14)).rawEstimate = 176423 ∧
    (HyperLogLog.mk 4 (List.replicate 16 14)).count ≠ 176423 := by
  rw [c6_rawEstimate]
  refine ⟨by norm_num, by norm_num, ?_, ?_⟩
  · unfold jsRound
    rw [Int.floor_eq_iff]
    constructor
    · norm_num
    · norm_num
  · rw [hll_count_eq, c6_rawEstimate]
    have hm : ((HyperLogLog.mk 4 (List.replicate 16 14)).m : ℝ) = 16 := by
      show (((2 : Nat) ^ 4 : Nat) : ℝ) = 16
      norm_num
    rw [hm]
    rw [if_neg (by norm_num), if_pos (by norm_num)]
    have harg : (1 : ℝ) - 176422.912 / (-2147483648) = 1 + 176422.912 / 2147483648 := by
      ring
    rw [harg]
    -- the value the code computes is 2^31 * ln(1 + x0) with
    -- x0 = 176422.912 / 2^31; show it is below 176422.5
    have hlog : Real.log (1 + 176422.912 / 2147483648) < 176422.5 / 2147483648 := by
      have hx0 : (0 : ℝ) < 1 + 176422.912 / 2147483648 := by norm_num
      rw [Real.log_lt_iff_lt_exp hx0]
      have hc2 : (1 : ℝ) + 176422.5 / 2147483648 / 2 ≤
          Real.exp (176422.5 / 2147483648 / 2) := by
        have := Real.add_one_le_exp (176422.5 / 2147483648 / 2)
        linarith
      have hsq : ((1 : ℝ) + 176422.5 / 2147483648 / 2) ^ 2 ≤
          Real.exp (176422.5 / 2147483648) := by
        calc ((1 : ℝ) + 176422.5 / 2147483648 / 2) ^ 2
            ≤ (Real.exp (176422.5 / 2147483648 / 2)) ^ 2 := by
              apply pow_le_pow_left₀ (by norm_num) hc2
          _ = Real.exp (176422.5 / 2147483648) := by
              rw [sq, ← Real.exp_add]
              norm_num

      have hlt : (1 : ℝ) + 176422.912 / 2147483648 <
          ((1 : ℝ) + 176422.5 / 2147483648 / 2) ^ 2 := by
        nlinarith
      linarith
    have hcode : -(-2147483648 : ℝ) * Real.log (1 + 176422.912 / 2147483648) <
        176422.5 := by
      have h2 : -(-2147483648 : ℝ) = 2147483648 := by norm_num
      rw [h2]
      calc (2147483648 : ℝ) * Real.log (1 + 176422.912 / 2147483648)
          < 2147483648 * (176422.5 / 2147483648) := by
            exact mul_lt_mul_of_pos_left hlog (by norm_num)
        _ = 176422.5 := by norm_num
    unfold jsRound
    intro hcontra
    have hfl : (⌊-(-2147483648 : ℝ) * Real.log (1 + 176422.912 / 2147483648) + 1 / 2⌋
        : ℤ) < 176423 := by
      rw [Int.floor_lt]
      push_cast
      linarith
    omega

theorem testBit_log2_self {n : Nat} (h : n ≠ 0) : n.testBit n.log2 = true := by
  rw [Nat.testBit_to_div_mod]
  have h1 : 2 ^ n.log2 ≤ n := Nat.log2_self_le h
  have h2 : n < 2 ^ (n.log2 + 1) := Nat.lt_log2_self
  have hpos : 0 < 2 ^ n.log2 := Nat.pos_pow_of_pos _ (by norm_num)
  have hq : n / 2 ^ n.log2 = 1 := by
    have hlo : 1 ≤ n / 2 ^ n.log2 := (Nat.le_div_iff_mul_le hpos).mpr (by omega)
    have hhi : n / 2 ^ n.log2 < 2 := by
      rw [Nat.div_lt_iff_lt_mul hpos]
      calc n < 2 ^ (n.log2 + 1) := h2
        _ = 2 * 2 ^ n.log2 := by rw [pow_succ]; ring
    omega
  rw [hq]
  rfl


theorem firstOnePos_eq {bits : Nat} (hb : bits ≠ 0) :
    ∀ k, bits.log2 < k → firstOnePos bits k = some bits.log2 := by
  intro k
  induction k with
  | zero => intro hlt; omega
  | succ k ih =>
    intro hlt
    unfold firstOnePos
    by_cases hk : bits.log2 = k
    · subst hk
      rw [if_pos]
      rw [Nat.one_shiftLeft, Nat.and_two_pow, testBit_log2_self hb]
      have : 0 < 2 ^ bits.log2 := Nat.pos_pow_of_pos _ (by norm_num)
      simp

    · have hlt' : bits.log2 < k := by omega
      have hbk : bits.testBit k = false :=
        Nat.testBit_eq_false_of_lt ((Nat.log2_lt hb).mp hlt')
      rw [if_neg, ih hlt']
      rw [Nat.one_shiftLeft, Nat.and_two_pow, hbk]
      simp


theorem countLeadingZeros_of_pos {p bits : Nat} (hb : bits ≠ 0)
    (hlt : bits < 2 ^ (32 - p)) :
    countLeadingZeros p bits = (32 - p) - (bits.log2 + 1) := by
  unfold countLeadingZeros
  rw [if_neg hb]
  have hl : bits.log2 < 32 - p := (Nat.log2_lt hb).mpr hlt
  show (match firstOnePos bits (32 - p) with
    | some position => (32 - p) - (position + 1)
    | none => (32 - p)) = 32 - p - (bits.log2 + 1)
  rw [firstOnePos_eq hb _ hl]

/-- C7 counterexample: with precision 14 a hashed value whose 18-bit
remainder is all-zero stores rank 19 = (32-14)+1 into its register, not
32-14 = 18 as the claim says (here: adding the hash value 0 to a fresh
sketch). -/

theorem getD_set_eq {α : Type} (l : List α) (i : Nat) (a d : α) (h : i < l.length) :
    (l.set i a).getD i d = a := by
  rw [List.getD_eq_getElem?_getD, List.getElem?_set_self (by omega)]
  rfl

/-! ## Claim C1: machinery for the Bitmap-to-Sketch promotion -/

theorem getD_append_last {α : Type} (l : List α) (x d : α) :
    (l ++ [x]).getD l.length d = x := by
  rw [List.getD_eq_getElem?_getD, List.getElem?_append_right (le_refl _)]
  simp

theorem set_append_last {α : Type} (l : List α) (x y : α) :
    (l ++ [x]).set l.length y = l ++ [y] := by
  rw [List.set_append, if_neg (by omega)]
  simp

theorem toUint32_eq_toNat {v : Int} (h0 : 0 ≤ v) (h1 : v < 4294967296) :
    toUint32 v = v.toNat := by
  unfold toUint32
  rw [Int.emod_eq_of_lt h0 h1]

/-- Adding to a precision-14 sketch, with the JS-literal constants folded:
the bucket index is the top 14 bits and the remainder the low 18. -/
theorem hll14_add_eq (regs : List Nat) (v : Int) :
    (HyperLogLog.mk 14 regs).add v =
      (if countLeadingZeros 14 (toUint32 v &&& 262143) + 1 >
          regs.getD (toUint32 v >>> 18) 0 then
        HyperLogLog.mk 14 (regs.set (toUint32 v >>> 18)
          (countLeadingZeros 14 (toUint32 v &&& 262143) + 1))
      else HyperLogLog.mk 14 regs) := rfl

/-- Values below 2^14 all land in bucket 0 of a precision-14 sketch, so
folding them only ever rewrites register 0, with the running maximum of
their ranks. -/
theorem hll14_foldAdd : ∀ (vs : List Int), (∀ v ∈ vs, 0 ≤ v ∧ v < 16384) → ∀ (r : Nat),
    vs.foldl (fun h v => h.add v)
        (HyperLogLog.mk 14 ((List.replicate 16384 0).set 0 r)) =
      HyperLogLog.mk 14 ((List.replicate 16384 0).set 0
        (vs.foldl (fun a v => max a (countLeadingZeros 14 (v.toNat &&& 262143) + 1)) r)) := by
  intro vs
  induction vs with
  | nil => intro _ r; rfl
  | cons v vs ih =>
    intro hb r
    obtain ⟨hv0, hv1⟩ := hb v (by simp)
    have hb' : ∀ u ∈ vs, 0 ≤ u ∧ u < 16384 := fun u hu => hb u (by simp [hu])
    simp only [List.foldl_cons]
    have hu32 : toUint32 v = v.toNat := toUint32_eq_toNat hv0 (by omega)
    have hidx : v.toNat >>> 18 = 0 := by
      rw [Nat.shiftRight_eq_div_pow]
      exact Nat.div_eq_of_lt (by omega)
    have hcur : ((List.replicate 16384 (0 : Nat)).set 0 r).getD 0 0 = r :=
      getD_set_eq _ _ _ _ (by rw [List.length_replicate]; omega)
    rw [hll14_add_eq, hu32, hidx]
    by_cases hgt : countLeadingZeros 14 (v.toNat &&& 262143) + 1 > r
    · rw [if_pos (by rw [hcur]; omega), List.set_set, ih hb']
      have hmax : max r (countLeadingZeros 14 (v.toNat &&& 262143) + 1) =
          countLeadingZeros 14 (v.toNat &&& 262143) + 1 := Nat.max_eq_right (by omega)
      rw [hmax]
    · rw [if_neg (by rw [hcur]; omega), ih hb']
      have hmax : max r (countLeadingZeros 14 (v.toNat &&& 262143) + 1) = r :=
        Nat.max_eq_left (by omega)
      rw [hmax]

theorem rank14_le_19 {v : Int} (h0 : 0 ≤ v) (h1 : v < 16384) :
    countLeadingZeros 14 (v.toNat &&& 262143) + 1 ≤ 19 := by
  have hmask : v.toNat &&& 262143 = v.toNat := by
    have h2 : (262143 : ℕ) = 2 ^ 18 - 1 := by norm_num
    rw [h2, Nat.and_pow_two_sub_one_eq_mod]
    exact Nat.mod_eq_of_lt (by omega)
  rw [hmask]
  by_cases hz : v.toNat = 0
  · rw [hz]
    decide
  · have hlt : v.toNat < 2 ^ (32 - 14) := by norm_num; omega
    rw [countLeadingZeros_of_pos hz hlt]
    omega

theorem foldl_max_le (f : Int → Nat) (B : Nat) :
    ∀ (vs : List Int) (r : Nat), r ≤ B → (∀ v ∈ vs, f v ≤ B) →
      vs.foldl (fun a v => max a (f v)) r ≤ B := by
  intro vs
  induction vs with
  | nil => intro r hr _; simpa using hr
  | cons v vs ih =>
    intro r hr hf
    rw [List.foldl_cons]
    exact ih _ (by have := hf v (by simp); omega)
      (fun u hu => hf u (by simp [hu]))

theorem le_foldl_max (f : Int → Nat) :
    ∀ (vs : List Int) (r : Nat), r ≤ vs.foldl (fun a v => max a (f v)) r := by
  intro vs
  induction vs with
  | nil => intro r; simp
  | cons v vs ih =>
    intro r
    rw [List.foldl_cons]
    have := ih (max r (f v))
    omega

theorem foldl_max_of_mem (f : Int → Nat) :
    ∀ (vs : List Int) (r : Nat) (v₀ : Int), v₀ ∈ vs →
      f v₀ ≤ vs.foldl (fun a v => max a (f v)) r := by
  intro vs
  induction vs with
  | nil => intro r v₀ h; cases h
  | cons v vs ih =>
    intro r v₀ hmem
    rw [List.foldl_cons]
    rcases List.mem_cons.mp hmem with h | h
    · subst h
      have := le_foldl_max f vs (max r (f v₀))
      omega
    · exact ih _ v₀ h

theorem getPositions_lt (b : Bitmap) : ∀ v ∈ b.getPositions, v < 8 * b.bits.length := by
  intro v hv
  unfold Bitmap.getPositions at hv
  rw [List.mem_flatten] at hv
  obtain ⟨sub, hsub, hvsub⟩ := hv
  rw [List.mem_map] at hsub
  obtain ⟨i, hi, rfl⟩ := hsub
  rw [List.mem_range] at hi
  rw [List.mem_filterMap] at hvsub
  obtain ⟨j, hj, hjv⟩ := hvsub
  rw [List.mem_range] at hj
  split at hjv
  · have : i * 8 + j = v := by
      injection hjv
    omega
  · cases hjv

theorem getD_append_last' {α : Type} (l : List α) (x d : α) (i : Nat)
    (h : i = l.length) : (l ++ [x]).getD i d = x := by
  subst h
  exact getD_append_last l x d

theorem set_append_last' {α : Type} (l : List α) (x y : α) (i : Nat)
    (h : i = l.length) : (l ++ [x]).set i y = l ++ [y] := by
  subst h
  exact set_append_last l x y

theorem except_ok_map_bind {A B C : Type} (x : A) (g : A → B) (f : B → Except String C) :
    ((Except.ok x : Except String A).map g >>= f) = f (g x) := rfl

theorem bitmap_count_rep255_append (sz n x : Nat) :
    Bitmap.count ⟨sz, List.replicate n 255 ++ [x]⟩ =
      n * 8 + ((List.range 8).filter (fun j => x &&& (1 <<< j) != 0)).length := by
  unfold Bitmap.count
  show ((List.replicate n 255 ++ [x]).map _).sum = _
  rw [List.map_append, List.sum_append, List.map_replicate, List.sum_replicate]
  have h255 : ((List.range 8).filter (fun j => (255 : ℕ) &&& (1 <<< j) != 0)).length
      = 8 := by decide
  rw [h255, smul_eq_mul]
  simp

theorem bm0_count :
    Bitmap.count (Bitmap.mk 16384 (List.replicate 2047 255 ++ [31])) = 16381 := by
  rw [bitmap_count_rep255_append]
  have h31 : ((List.range 8).filter (fun j => (31 : ℕ) &&& (1 <<< j) != 0)).length
      = 5 := by decide
  rw [h31]

theorem bm1_count :
    Bitmap.count (Bitmap.mk 16384 (List.replicate 2047 255 ++ [63])) = 16382 := by
  rw [bitmap_count_rep255_append]
  have h63 : ((List.range 8).filter (fun j => (63 : ℕ) &&& (1 <<< j) != 0)).length
      = 6 := by decide
  rw [h63]

theorem zero_mem_bm1_positions :
    0 ∈ (Bitmap.mk 16384 (List.replicate 2047 255 ++ [63])).getPositions := by
  unfold Bitmap.getPositions
  rw [List.mem_flatten]
  refine ⟨(List.range 8).filterMap (fun j =>
    if ((Bitmap.mk 16384 (List.replicate 2047 255 ++ [63])).bits.getD 0 0) &&&
        (1 <<< j) != 0 then some (0 * 8 + j) else none), ?_, ?_⟩
  · rw [List.mem_map]
    refine ⟨0, ?_, rfl⟩
    rw [List.mem_range]
    show 0 < (List.replicate 2047 (255 : ℕ) ++ [63]).length
    simp
  · have hb : (Bitmap.mk 16384 (List.replicate 2047 255 ++ [63])).bits.getD 0 0
        = 255 := rfl
    rw [hb]
    decide

theorem zeroCountOf_concrete : zeroCountOf (19 :: List.replicate 16383 0) = 16383 := by
  unfold zeroCountOf
  rw [List.count_cons, List.count_replicate]
  norm_num

theorem hllSum_concrete :
    hllSum (19 :: List.replicate 16383 0) = (2 : ℝ) ^ (-(19 : ℤ)) + 16383 := by
  unfold hllSum
  rw [List.map_cons, List.sum_cons, List.map_replicate, List.sum_replicate]
  have hz0 : ((2 : ℝ) ^ (-((0 : ℕ) : ℤ))) = 1 := by norm_num
  rw [hz0, nsmul_eq_mul]
  norm_num

/-- The count of a precision-14 sketch whose registers hold one 19 and
16383 zeros: the raw estimate is far below 2.5 * m, a zero register exists,
so the linear-counting branch returns 16384 * ln(16384/16383), which rounds
to 1. -/
theorem hll14_count_one (regs : List Nat)
    (hzc : zeroCountOf regs = 16383)
    (hsum : hllSum regs = (2 : ℝ) ^ (-(19 : ℤ)) + 16383) :
    (HyperLogLog.mk 14 regs).count = 1 := by
  rw [hll_count_eq]
  have hm : (((HyperLogLog.mk 14 regs).m : Nat) : ℝ) = 16384 := by
    show (((2 : ℕ) ^ 14 : ℕ) : ℝ) = 16384
    norm_num
  have hraw : (HyperLogLog.mk 14 regs).rawEstimate =
      0.7213 / (1 + 1.079 / 16384) * 16384 * 16384 /
        ((2 : ℝ) ^ (-(19 : ℤ)) + 16383) := by
    unfold HyperLogLog.rawEstimate
    have hregsproj : (HyperLogLog.mk 14 regs).registers = regs := rfl
    rw [hregsproj, hsum, hm]
    have halpha : alphaOf (HyperLogLog.mk 14 regs).m = 0.7213 / (1 + 1.079 / 16384) := by
      show alphaOf (2 ^ 14) = _
      unfold alphaOf
      rw [if_neg (by norm_num), if_neg (by norm_num), if_neg (by norm_num)]
      norm_num
    rw [halpha]
  have hz19 : (0 : ℝ) < (2 : ℝ) ^ (-(19 : ℤ)) := by positivity
  have hrawle : (HyperLogLog.mk 14 regs).rawEstimate ≤ 2.5 * 16384 := by
    rw [hraw]
    have hnum_le : (0.7213 : ℝ) / (1 + 1.079 / 16384) * 16384 * 16384 ≤
        0.7213 * 16384 * 16384 := by
      have hd : (1 : ℝ) ≤ 1 + 1.079 / 16384 := by norm_num
      have : (0.7213 : ℝ) / (1 + 1.079 / 16384) ≤ 0.7213 :=
        div_le_self (by norm_num) hd
      nlinarith
    have hden : (16383 : ℝ) ≤ (2 : ℝ) ^ (-(19 : ℤ)) + 16383 := by linarith
    calc (0.7213 : ℝ) / (1 + 1.079 / 16384) * 16384 * 16384 /
          ((2 : ℝ) ^ (-(19 : ℤ)) + 16383)
        ≤ 0.7213 * 16384 * 16384 / 16383 := by
          apply div_le_div₀ (by positivity) hnum_le (by norm_num) hden
      _ ≤ 2.5 * 16384 := by norm_num
  have hregsproj : (HyperLogLog.mk 14 regs).registers = regs := rfl
  rw [hregsproj, hzc, hm, if_pos hrawle, if_pos (by omega)]
  have hlogub : Real.log ((16384 : ℝ) / 16383) ≤ 1 / 16383 := by
    have h := Real.log_le_sub_one_of_pos (show (0 : ℝ) < 16384 / 16383 by norm_num)
    have he : (16384 : ℝ) / 16383 - 1 = 1 / 16383 := by norm_num
    linarith
  have hloglb : (1 : ℝ) / 16384 ≤ Real.log ((16384 : ℝ) / 16383) := by
    have h := Real.log_le_sub_one_of_pos (show (0 : ℝ) < 16383 / 16384 by norm_num)
    have hinv : Real.log ((16383 : ℝ) / 16384) = -Real.log ((16384 : ℝ) / 16383) := by
      rw [← Real.log_inv]
      norm_num
    rw [hinv] at h
    have he : (16383 : ℝ) / 16384 - 1 = -(1 / 16384) := by norm_num
    linarith
  unfold jsRound
  rw [Int.floor_eq_iff]
  have hcast : ((16383 : ℕ) : ℝ) = 16383 := by norm_num
  rw [hcast]
  constructor
  · have h1 : (16384 : ℝ) * (1 / 16384) ≤ 16384 * Real.log (16384 / 16383) :=
      mul_le_mul_of_nonneg_left hloglb (by norm_num)
    push_cast
    nlinarith
  · have h1 : (16384 : ℝ) * Real.log (16384 / 16383) ≤ 16384 * (1 / 16383) :=
      mul_le_mul_of_nonneg_left hlogub (by norm_num)
    push_cast
    nlinarith

/-- C1: a concrete UvCounter in the Bitmap tier with bits 0..16380 set
reports count() = 16381; adding the identifier with code unit 16381 (14-bit
hash 16381) sets the 16382nd bit and triggers the Bitmap-to-Sketch
promotion, which feeds the bit positions (all below 2^14, hence all in
sketch bucket 0) into a fresh HyperLogLog; the promoted counter's count()
is 1.  So count() drops from 16381 to 1 across one add call, violating
monotonicity. -/
theorem c1_promotion_count_collapse :
    UvCounter.count ⟨1, .bit (Bitmap.mk 16384 (List.replicate 2047 255 ++ [31]))⟩
      = 16381 ∧
    UvCounter.add ⟨1, .bit (Bitmap.mk 16384 (List.replicate 2047 255 ++ [31]))⟩
      [16381] =
      .ok ⟨2, .llm (HyperLogLog.mk 14 ((List.replicate 16384 0).set 0 19))⟩ ∧
    UvCounter.count ⟨2, .llm (HyperLogLog.mk 14 ((List.replicate 16384 0).set 0 19))⟩
      = 1 := by
  refine ⟨?_, ?_, ?_⟩
  · rw [count_bit, bm0_count]
    norm_num
  · have hh : hash14 [16381] = 16381 := by rw [hash14_single]
    have haddok : (Bitmap.mk 16384 (List.replicate 2047 255 ++ [31])).add 16381 =
        .ok ((Bitmap.mk 16384 (List.replicate 2047 255 ++ [31])).setUnchecked 16381) := by
      unfold Bitmap.add Bitmap.set
      rw [if_pos (show (16381 : ℕ) < 16384 by norm_num)]
    have hidx : (16381 : ℕ) >>> 3 = 2047 := by decide
    have hoff : (16381 : ℕ) % 8 = 5 := by decide
    have hgd : (List.replicate 2047 (255 : ℕ) ++ [31]).getD 2047 0 = 31 :=
      getD_append_last' _ _ _ _ (by rw [List.length_replicate])
    have hor : (31 : ℕ) ||| 1 <<< 5 = 63 := by decide
    have hsetapp : (List.replicate 2047 (255 : ℕ) ++ [31]).set 2047 63 =
        List.replicate 2047 255 ++ [63] :=
      set_append_last' _ _ _ _ (by rw [List.length_replicate])
    have hset : (Bitmap.mk 16384 (List.replicate 2047 255 ++ [31])).setUnchecked 16381 =
        Bitmap.mk 16384 (List.replicate 2047 255 ++ [63]) := by
      conv_lhs =>
        unfold Bitmap.setUnchecked
        rw [hidx, hoff, hgd, hor, hsetapp]
    have hc16382 : (16382 : Int) ≤
        ((Bitmap.mk 16384 (List.replicate 2047 255 ++ [63])).count : Int) := by
      rw [bm1_count]
      norm_num
    have hbounds : ∀ v ∈ (Bitmap.mk 16384
        (List.replicate 2047 255 ++ [63])).valueList.map ((↑·) : ℕ → ℤ),
        0 ≤ v ∧ v < 16384 := by
      intro v hv
      rw [List.mem_map] at hv
      obtain ⟨p, hp, rfl⟩ := hv
      have hplt := getPositions_lt _ p hp
      have hlen2048 : (Bitmap.mk 16384
          (List.replicate 2047 255 ++ [63])).bits.length = 2048 := by
        show (List.replicate 2047 (255 : ℕ) ++ [63]).length = 2048
        simp
      rw [hlen2048] at hplt
      constructor
      · exact Int.natCast_nonneg p
      · exact_mod_cast hplt.trans_le (by norm_num)
    have hinit : HyperLogLog.init 14 =
        HyperLogLog.mk 14 ((List.replicate 16384 0).set 0 0) := rfl
    have hM : ((Bitmap.mk 16384
        (List.replicate 2047 255 ++ [63])).valueList.map ((↑·) : ℕ → ℤ)).foldl
        (fun a v => max a (countLeadingZeros 14 (v.toNat &&& 262143) + 1)) 0 = 19 := by
      have hub : ((Bitmap.mk 16384
          (List.replicate 2047 255 ++ [63])).valueList.map ((↑·) : ℕ → ℤ)).foldl
          (fun a v => max a (countLeadingZeros 14 (v.toNat &&& 262143) + 1)) 0 ≤ 19 :=
        foldl_max_le (fun v => countLeadingZeros 14 (v.toNat &&& 262143) + 1) 19 _ 0
          (by omega) (fun v hv => rank14_le_19 (hbounds v hv).1 (hbounds v hv).2)
      have hmem0 : (0 : ℤ) ∈ (Bitmap.mk 16384
          (List.replicate 2047 255 ++ [63])).valueList.map ((↑·) : ℕ → ℤ) := by
        rw [List.mem_map]
        exact ⟨0, zero_mem_bm1_positions, rfl⟩
      have hlb : (19 : ℕ) ≤ ((Bitmap.mk 16384
          (List.replicate 2047 255 ++ [63])).valueList.map ((↑·) : ℕ → ℤ)).foldl
          (fun a v => max a (countLeadingZeros 14 (v.toNat &&& 262143) + 1)) 0 :=
        foldl_max_of_mem (fun v => countLeadingZeros 14 (v.toNat &&& 262143) + 1)
          _ 0 (0 : ℤ) hmem0
      omega
    have step1 : UvCounter.add
        ⟨1, .bit (Bitmap.mk 16384 (List.replicate 2047 255 ++ [31]))⟩ [16381] =
        UvCounter.updateType
          ⟨1, .bit (Bitmap.mk 16384 (List.replicate 2047 255 ++ [63]))⟩ := by
      conv_lhs => rw [uv_add_bit, hh, counter_add_bit, haddok, hset, except_ok_map_bind]
    have step2 := updateType_bit_promote
      (Bitmap.mk 16384 (List.replicate 2047 255 ++ [63])) hc16382
    have step3 := bit2llm_bit 1 (Bitmap.mk 16384 (List.replicate 2047 255 ++ [63]))
    have step4 : Except.ok (⟨2, .llm (((Bitmap.mk 16384
        (List.replicate 2047 255 ++ [63])).valueList.map ((↑·) : ℕ → ℤ)).foldl
          (fun h v => h.add v) (HyperLogLog.init 14))⟩ : UvCounter) =
        (.ok ⟨2, .llm (HyperLogLog.mk 14 ((List.replicate 16384 0).set 0 19))⟩ :
          Except String UvCounter) := by
      conv_lhs => rw [hinit, hll14_foldAdd _ hbounds 0, hM]
    exact step1.trans (step2.trans (step3.trans step4))
  · show (HyperLogLog.mk 14 ((List.replicate 16384 0).set 0 19)).count = 1
    have hregs : (List.replicate 16384 (0 : ℕ)).set 0 19 =
        19 :: List.replicate 16383 0 := rfl
    refine hll14_count_one _ ?_ ?_
    · conv_lhs => rw [hregs]
      exact zeroCountOf_concrete
    · conv_lhs => rw [hregs]
      exact hllSum_concrete

/-! ## Claim C9 -/

/-- C9 counterexample: a Sketch state with register contents [5,0,0,0]
(precision 2) fed the malformed compressed hex "zz" fails with a format
error but does NOT keep its registers: they are left zero-filled by the
reset that the source performs before validating. -/
theorem c9_counterexample :
    ((HyperLogLog.mk 2 [5, 0, 0, 0]).fromCompressedHex ['z', 'z']).1.isSome = true ∧
    ((HyperLogLog.mk 2 [5, 0, 0, 0]).fromCompressedHex ['z', 'z']).2.registers ≠
      [5, 0, 0, 0] :=
  ⟨by decide, by decide⟩

/-- C9 (amended): for both the Sketch and the Bitmap tier, decoding a
malformed nonempty compressed-hex input (non-hex characters, odd length, or
more bytes than the structure holds) fails with a format error; the
structure is reset FIRST, so on failure its registers/bits are left
all-zero -- the prior state is cleared, and no byte of the malformed input
is applied. -/
theorem c9_malformed_decode (h : HyperLogLog) (b : Bitmap) (s t : List Char)
    (hs : s ≠ [] ∧ (¬ (s.all isHexDigit = true) ∨ s.length % 2 ≠ 0 ∨
      h.registers.length < s.length / 2))
    (ht : t ≠ [] ∧ (¬ (t.all isHexDigit = true) ∨ t.length % 2 ≠ 0 ∨
      b.bits.length < t.length / 2)) :
    ((h.fromCompressedHex s).1.isSome = true ∧ (h.fromCompressedHex s).2 = h.reset) ∧
    ((b.fromCompressedHex t).1.isSome = true ∧ (b.fromCompressedHex t).2 = b.reset) := by
  constructor
  · obtain ⟨hne, hmal⟩ := hs
    have hempty : s.isEmpty = false := by
      cases s with
      | nil => exact absurd rfl hne
      | cons a as => rfl
    simp only [HyperLogLog.fromCompressedHex]
    rw [if_neg (by simp [hempty])]
    by_cases hhex : s.all isHexDigit = true
    · rw [if_neg (by simp [hhex])]
      by_cases hodd : s.length % 2 = 0
      · have hlong : h.registers.length < s.length / 2 := by
          rcases hmal with h1 | h2 | h3
          · exact absurd hhex h1
          · omega
          · exact h3
        rw [if_neg (by omega), if_pos (by omega)]
        exact ⟨rfl, rfl⟩
      · rw [if_pos (by omega)]
        exact ⟨rfl, rfl⟩
    · rw [if_pos hhex]
      exact ⟨rfl, rfl⟩
  · obtain ⟨hne, hmal⟩ := ht
    have hempty : t.isEmpty = false := by
      cases t with
      | nil => exact absurd rfl hne
      | cons a as => rfl
    simp only [Bitmap.fromCompressedHex]
    rw [if_neg (by simp [hempty])]
    by_cases hhex : t.all isHexDigit = true
    · rw [if_neg (by simp [hhex])]
      by_cases hodd : t.length % 2 = 0
      · have hlong : b.bits.length < t.length / 2 := by
          rcases hmal with h1 | h2 | h3
          · exact absurd hhex h1
          · omega
          · exact h3
        rw [if_neg (by omega), if_pos (by omega)]
        exact ⟨rfl, rfl⟩
      · rw [if_pos (by omega)]
        exact ⟨rfl, rfl⟩
    · rw [if_pos hhex]
      exact ⟨rfl, rfl⟩

/-- C9 witness: a Sketch state fed the non-hex input "g" and a 16-bit
Bitmap fed the six-character input "000000" (three bytes, two available)
both fail and are left zero-filled. -/
theorem c9_malformed_decode_witness :
    (((HyperLogLog.mk 2 [7, 0, 0, 0]).fromCompressedHex ['g']).1.isSome = true ∧
      ((HyperLogLog.mk 2 [7, 0, 0, 0]).fromCompressedHex ['g']).2 =
        (HyperLogLog.mk 2 [7, 0, 0, 0]).reset) ∧
    (((Bitmap.mk 16 [3, 1]).fromCompressedHex ['0', '0', '0', '0', '0', '0']).1.isSome
        = true ∧
      ((Bitmap.mk 16 [3, 1]).fromCompressedHex ['0', '0', '0', '0', '0', '0']).2 =
        (Bitmap.mk 16 [3, 1]).reset) :=
  c9_malformed_decode (HyperLogLog.mk 2 [7, 0, 0, 0]) (Bitmap.mk 16 [3, 1])
    ['g'] ['0', '0', '0', '0', '0', '0'] (by decide) (by decide)

/-! ## Claim C4 -/

theorem bytesToHex_replicate_zero (n : Nat) :
    bytesToHex (List.replicate n 0) = List.replicate (2 * n) '0' := by
  induction n with
  | zero => rfl
  | succ n ih =>
    unfold bytesToHex at ih ⊢
    rw [List.replicate_succ, List.map_cons, List.flatten_cons, ih]
    show ['0', '0'] ++ List.replicate (2 * n) '0' = _
    rw [show 2 * (n + 1) = 2 + 2 * n by omega, List.replicate_add]
    rfl

/-- C4: the Sketch tier cannot round-trip in the uncompressed hex mode: the
encoder emits two characters per register (2 * 16384 for the default
precision 14), but the decoder demands Math.ceil(m / 8) * 2 = 4096
characters -- the byte-length formula copied from Bitmap -- and so rejects
every output of the encoder with a length-mismatch format error. -/
theorem c4_sketch_uncompressed_roundtrip_fails :
    ((HyperLogLog.init 14).toHex).length = 32768 ∧
    ((HyperLogLog.init 14).fromHex ((HyperLogLog.init 14).toHex)).1 =
      some "Hex string length mismatch" := by
  have hreg : (HyperLogLog.init 14).registers = List.replicate 16384 0 := rfl
  have htox : (HyperLogLog.init 14).toHex = List.replicate 32768 '0' := by
    show bytesToHex (HyperLogLog.init 14).registers = _
    rw [hreg, bytesToHex_replicate_zero]
  have hall : ((HyperLogLog.init 14).toHex).all isHexDigit = true := by
    rw [htox]
    simp only [List.all_eq_true]
    intro c hc
    rw [List.eq_of_mem_replicate hc]
    decide
  have hlen : ((HyperLogLog.init 14).toHex).length = 32768 := by
    rw [htox, List.length_replicate]
  refine ⟨hlen, ?_⟩
  unfold HyperLogLog.fromHex
  rw [if_neg (fun hn => hn hall), if_pos]
  rw [hlen]
  show (32768 : Nat) ≠ ((2 ^ 14 + 7) / 8) * 2
  norm_num

/-! ## Claim C7 -/

theorem toUint32_lt (n : Int) : toUint32 n < 4294967296 := by
  unfold toUint32
  have h0 : (0 : Int) ≤ n % 4294967296 := Int.emod_nonneg n (by norm_num)
  have h1 : n % 4294967296 < 4294967296 := Int.emod_lt_of_pos n (by norm_num)
  omega

/-- C7 counterexample: adding the value 0 to a fresh precision-14 sketch
gives an all-zero 18-bit remainder, and the register stored at bucket 0 is
19 = (32 - 14) + 1, not the 32 - p = 18 the claim prescribes for an
all-zero remainder. -/
theorem c7_counterexample :
    ((HyperLogLog.init 14).add 0).registers.getD 0 0 = 19 ∧ (19 : Nat) ≠ 32 - 14 :=
  ⟨by decide, by decide⟩

/-- Unfolding of HyperLogLog.add: the register at the bucket index is
replaced by the rank when the rank exceeds it, otherwise the state is
unchanged. -/
theorem hll_add_eq (h : HyperLogLog) (v : Int) :
    h.add v =
      (if countLeadingZeros h.p (toUint32 v &&& ((1 <<< (32 - h.p)) - 1)) + 1 >
          h.registers.getD (toUint32 v >>> (32 - h.p)) 0 then
        HyperLogLog.mk h.p (h.registers.set (toUint32 v >>> (32 - h.p))
          (countLeadingZeros h.p (toUint32 v &&& ((1 <<< (32 - h.p)) - 1)) + 1))
      else h) := rfl

/-- C7 (amended): the register written by add is the max of the current
register and the rank, where the rank of an all-zero remainder is
(32-p) + 1 (one more than the claim's 32-p), and the rank of a non-zero
remainder is the 1-indexed position of its first 1-bit from the most
significant of the 32-p remaining bits, i.e. (32-p) - log2(remainder). -/
theorem c7_rank_amended (h : HyperLogLog) (v : Int) (hp : h.p ≤ 31)
    (hlen : h.registers.length = 2 ^ h.p) :
    ((h.add v).registers.getD (toUint32 v >>> (32 - h.p)) 0) =
      max (h.registers.getD (toUint32 v >>> (32 - h.p)) 0)
        (if toUint32 v &&& ((1 <<< (32 - h.p)) - 1) = 0 then (32 - h.p) + 1
         else (32 - h.p) - Nat.log2 (toUint32 v &&& ((1 <<< (32 - h.p)) - 1))) := by
  have hbitslt : toUint32 v &&& ((1 <<< (32 - h.p)) - 1) < 2 ^ (32 - h.p) := by
    rw [Nat.one_shiftLeft, Nat.and_pow_two_sub_one_eq_mod]
    exact Nat.mod_lt _ (Nat.pos_pow_of_pos _ (by norm_num))
  have hrank : countLeadingZeros h.p (toUint32 v &&& ((1 <<< (32 - h.p)) - 1)) + 1 =
      (if toUint32 v &&& ((1 <<< (32 - h.p)) - 1) = 0 then (32 - h.p) + 1
       else (32 - h.p) - Nat.log2 (toUint32 v &&& ((1 <<< (32 - h.p)) - 1))) := by
    by_cases hb : toUint32 v &&& ((1 <<< (32 - h.p)) - 1) = 0
    · rw [if_pos hb, hb]
      unfold countLeadingZeros
      rw [if_pos rfl]
    · rw [if_neg hb, countLeadingZeros_of_pos hb hbitslt]
      have hlog : (toUint32 v &&& ((1 <<< (32 - h.p)) - 1)).log2 < 32 - h.p :=
        (Nat.log2_lt hb).mpr hbitslt
      omega
  have hidxlt : toUint32 v >>> (32 - h.p) < h.registers.length := by
    rw [hlen, Nat.shiftRight_eq_div_pow]
    have hhu32 : toUint32 v < 4294967296 := toUint32_lt v
    have hpow : 0 < 2 ^ (32 - h.p) := Nat.pos_pow_of_pos _ (by norm_num)
    rw [Nat.div_lt_iff_lt_mul hpow]
    have hsplit : 2 ^ h.p * 2 ^ (32 - h.p) = 2 ^ 32 := by
      rw [← pow_add]
      congr 1
      omega
    calc toUint32 v < 4294967296 := hhu32
      _ = 2 ^ 32 := by norm_num
      _ = 2 ^ h.p * 2 ^ (32 - h.p) := hsplit.symm
  rw [hll_add_eq]
  split
  · rename_i hgt
    show (h.registers.set (toUint32 v >>> (32 - h.p))
        (countLeadingZeros h.p (toUint32 v &&& ((1 <<< (32 - h.p)) - 1)) + 1)).getD
          (toUint32 v >>> (32 - h.p)) 0 = _
    rw [getD_set_eq _ _ _ _ hidxlt, ← hrank]
    exact (Nat.max_eq_right (le_of_lt hgt)).symm
  · rename_i hng
    push_neg at hng
    rw [← hrank]
    exact (Nat.max_eq_left hng).symm

/-- C7 witness: precision 4, hash value 7 (non-zero 28-bit remainder with
log2 7 = 2, so rank 26), applied to a fresh sketch. -/
theorem c7_rank_amended_witness :
    (HyperLogLog.init 4).p ≤ 31 ∧
    (HyperLogLog.init 4).registers.length = 2 ^ (HyperLogLog.init 4).p ∧
    ((HyperLogLog.init 4).add 7).registers.getD
        (toUint32 7 >>> (32 - (HyperLogLog.init 4).p)) 0 =
      max ((HyperLogLog.init 4).registers.getD
          (toUint32 7 >>> (32 - (HyperLogLog.init 4).p)) 0)
        (if toUint32 7 &&& ((1 <<< (32 - (HyperLogLog.init 4).p)) - 1) = 0 then
          (32 - (HyperLogLog.init 4).p) + 1
         else (32 - (HyperLogLog.init 4).p) -
          Nat.log2 (toUint32 7 &&& ((1 <<< (32 - (HyperLogLog.init 4).p)) - 1))) :=
  ⟨by decide, by decide, c7_rank_amended (HyperLogLog.init 4) 7 (by decide) (by decide)⟩

/-! ## Claim C8 -/

/-- C8 counterexample: the 32-bit hash of "aaaaaa" (six code units 97) is
the NEGATIVE Int32 value -1425372064, so the hash is not an unsigned
integer in [0, 2^32) as the claim states. -/
theorem c8_counterexample :
    hash32 (List.replicate 6 97) = -1425372064 ∧
    ¬ (0 ≤ hash32 (List.replicate 6 97)) :=
  ⟨by decide, by decide⟩

/-- C8 (amended): for every input string the 9-bit hash lies in [0, 2^9) and
the 14-bit hash in [0, 2^14); the 32-bit hash is a SIGNED Int32 in
[-2^31, 2^31) (its unsigned 32-bit bit pattern is the hash value).  All
three are total and map the empty string to 0. -/
theorem c8_hash_widths (s : List Nat) :
    hash9 s < 512 ∧ hash14 s < 16384 ∧
    -2147483648 ≤ hash32 s ∧ hash32 s < 2147483648 ∧
    hash9 [] = 0 ∧ hash14 [] = 0 ∧ hash32 [] = 0 :=
  ⟨hash9_lt s, hash14_lt s, (hash32_range s).1, (hash32_range s).2, rfl, rfl, rfl⟩

end PageStats
